import Mathlib

/-!
Shallow embedding of the IRC connection core of rust-irclib
(`src/conn/mod.rs`): the `Line` codec (`Line::parse`, `Line::to_raw`),
the command emitter (`Conn::send_command`, `Conn::send_raw`, `chomp`)
and the post-loop shutdown drain of `Conn::run`, together with proofs
settling the frozen claims about them.

Byte strings are modelled as `List Nat`, one element per byte.
Fallible stages return `Option`; a Rust `unwrap`/`unreachable!` failure
is modelled as the distinguished outcome `ParseResult.crash`.
-/

namespace Irclib

/-- Byte strings on the wire. -/
abbrev Bytes := List Nat

/-- Bytes of an ASCII string literal (convenience for test vectors). -/
def strB (s : String) : Bytes := s.data.map Char.toNat

/-- Rust `b >= '0' && b <= '9'` used on the command token. -/
def isDigitB (b : Nat) : Bool := decide (48 ≤ b ∧ b ≤ 57)

/-- Rust `b < 0x80 && char::is_alphabetic(b as char)`: for bytes below
`0x80`, `char::is_alphabetic` holds exactly on ASCII letters. -/
def isAlphaB (b : Nat) : Bool := decide ((65 ≤ b ∧ b ≤ 90) ∨ (97 ≤ b ∧ b ≤ 122))

/-- `slice::position_elem(&b)`: index of the first occurrence of `b`. -/
def positionElem (b : Nat) : Bytes → Option Nat
  | [] => none
  | c :: cs => if c = b then some 0 else (positionElem b cs).map (· + 1)

/-- `from_utf8(s).and_then(from_str::<uint>)` on an all-digit byte string:
its decimal value (the `.unwrap_or(0)` fallback never fires on the
three-digit tokens this is applied to). -/
def digitsToNat (s : Bytes) : Nat := s.foldl (fun acc b => acc * 10 + (b - 48)) 0

/-- Helper for `uint::to_str_bytes(n, 10)`; the fuel argument only makes the
recursion structural, `natDigitsGo n n` always has enough fuel. -/
def natDigitsGo : Nat → Nat → Bytes
  | 0, _ => []
  | fuel+1, n => if n = 0 then [] else natDigitsGo fuel (n / 10) ++ [48 + n % 10]

/-- `uint::to_str_bytes(n, 10)`: the decimal digit bytes of `n`. -/
def natDigits (n : Nat) : Bytes := if n = 0 then [48] else natDigitsGo n n

/-- The zero padding `Line::to_raw` applies to an `IRCCode`:
`'0'` repeated `3 - min(len, 3)` times, then the digits. -/
def pad3 (v : Bytes) : Bytes := List.replicate (3 - min v.length 3) 48 ++ v

/-- Modelled from the spec: the `User` value type lives outside
`src/conn/mod.rs`; the only contract used by the connection core is
construction from a byte slice (`User::parse`) and a `raw()` accessor
returning its canonical byte form, so it is modelled as a wrapper
around those bytes. -/
structure User where
  raw : Bytes
deriving DecidableEq, Repr

/-- `User::parse`, per the spec contract above. -/
def User.parse (s : Bytes) : User := ⟨s⟩

/-- The `Command` enum of `src/conn/mod.rs`.  Field order follows the
source declaration: `IRCCTCP(command, destination)` and
`IRCCTCPReply(command, destination)`. -/
inductive Command where
  | IRCCmd : Bytes → Command
  | IRCCode : Nat → Command
  | IRCAction : Bytes → Command
  | IRCCTCP : Bytes → Bytes → Command
  | IRCCTCPReply : Bytes → Bytes → Command
deriving DecidableEq, Repr

/-- `Command::is_ctcp`. -/
def Command.is_ctcp : Command → Bool
  | .IRCAction _ => true
  | .IRCCTCP _ _ => true
  | .IRCCTCPReply _ _ => true
  | _ => false

/-- The `Line` struct: optional prefix, command, arguments. -/
structure Line where
  pfx : Option User
  command : Command
  args : List Bytes
deriving DecidableEq, Repr

/-- Outcome of `Line::parse`: `ok` models `Some(line)`, `err` models
`None`, and `crash` models a Rust panic (a failing `unwrap` or
`unreachable!`). -/
inductive ParseResult where
  | ok : Line → ParseResult
  | err : ParseResult
  | crash : ParseResult
deriving DecidableEq, Repr

/-- The CTCP framing strip inside `Line::parse`: if the text is longer
than one byte and ends with `0x01`, take `text[1 .. len-1]`; otherwise
`text.remove(0)` (the text is known to start with `0x01`). -/
def ctcpStrip (text : Bytes) : Bytes :=
  if text.length > 1 ∧ text.getLast? = some 1 then
    (text.drop 1).take (text.length - 2)
  else
    text.drop 1

/-- The CTCP rewrite step of `Line::parse` (lines 632-672 of the
source): pop the last arg as `text`, strip the framing, take the first
remaining arg as the destination (`none` models the panicking `unwrap`
when no arg remains), split on the first space, and rewrite the
command.  Remaining positional args beyond the first are discarded,
exactly as `args.into_iter().next()` does. -/
def ctcpRewrite (command : Command) (args0 : List Bytes) : Option (Command × List Bytes) :=
  let text := (args0.getLast?).getD []
  let rest := args0.dropLast
  let text := ctcpStrip text
  match rest.head? with
  | none => none
  | some dst =>
    let (ctcpcmd, args) :=
      match positionElem 32 text with
      | some idx => (text.take idx, [text.drop (idx + 1)])
      | none => (text, ([] : List Bytes))
    match command with
    | .IRCCmd c =>
      if c = strB "PRIVMSG" then
        if ctcpcmd = strB "ACTION" then
          some (.IRCAction dst, if args = [] then [[]] else args)
        else
          some (.IRCCTCP ctcpcmd dst, args)
      else if c = strB "NOTICE" then
        some (.IRCCTCPReply ctcpcmd dst, args)
      else none
    | _ => none

/-- `args.last().map_or(false, |v| v.starts_with([0x1]))`. -/
def lastStartsCtcp (args : List Bytes) : Bool :=
  match args.getLast? with
  | none => false
  | some t => decide (t.head? = some 1)

/-- The argument loop of `Line::parse`, fuel-indexed to make the
recursion structural; each iteration consumes at least one byte, so
`parseArgs` below always supplies enough fuel. -/
def parseArgsGo : Nat → Bytes → List Bytes
  | 0, _ => []
  | fuel+1, v =>
    if v = [] then []
    else if v.head? = some 58 then [v.drop 1]
    else
      match positionElem 32 v with
      | none => [v]
      | some idx => v.take idx :: parseArgsGo fuel (v.drop (idx + 1))

/-- The argument loop of `Line::parse`: a leading `':'` swallows the
rest as the final arg, otherwise split at each space. -/
def parseArgs (v : Bytes) : List Bytes := parseArgsGo v.length v

/-- Stage 4 of `Line::parse`: parse the args, then run the CTCP rewrite
when flagged and the last arg starts with `0x01`. -/
def parseStage4 (pfx : Option User) (command : Command) (checkCTCP : Bool)
    (v : Bytes) : ParseResult :=
  let args := parseArgs v
  if checkCTCP && lastStartsCtcp args then
    match ctcpRewrite command args with
    | none => .crash
    | some (c2, a2) => .ok ⟨pfx, c2, a2⟩
  else .ok ⟨pfx, command, args⟩

/-- Stage 3 of `Line::parse`: classify the command token. -/
def parseStage3 (pfx : Option User) (cmd : Bytes) (v : Bytes) : ParseResult :=
  if cmd.length = 3 && cmd.all isDigitB then
    parseStage4 pfx (.IRCCode (digitsToNat cmd)) false v
  else if cmd.all isAlphaB then
    parseStage4 pfx (.IRCCmd cmd)
      (decide (cmd = strB "PRIVMSG") || decide (cmd = strB "NOTICE")) v
  else .err

/-- Stage 2 of `Line::parse`: cut the command token at the next space;
an immediate space (`Some(0)`) is an empty command and fails. -/
def parseStage2 (pfx : Option User) (v : Bytes) : ParseResult :=
  match positionElem 32 v with
  | none => parseStage3 pfx v []
  | some idx =>
    if idx = 0 then .err
    else parseStage3 pfx (v.take idx) (v.drop (idx + 1))

/-- `Line::parse`.  Stage 1: when the line starts with `':'`, the
segment up to the first space becomes the prefix (no space at all
fails); the rest goes through stages 2-4. -/
def Line.parse (v0 : Bytes) : ParseResult :=
  if v0.head? = some 58 then
    match positionElem 32 v0 with
    | none => .err
    | some idx =>
      parseStage2 (some (User.parse ((v0.drop 1).take (idx - 1)))) (v0.drop (idx + 1))
  else parseStage2 none v0

/-- `Line::to_raw`: prefix, then the command bytes, then the argument
bytes (CTCP args are space-joined and closed with `0x01`; otherwise all
but the last arg are space-prefixed and the last is colon-prefixed
exactly when it contains a space). -/
def Line.to_raw (l : Line) : Bytes :=
  let pre : Bytes :=
    match l.pfx with
    | some u => (58 :: u.raw) ++ [32]
    | none => []
  let cmdPart : Bytes :=
    match l.command with
    | .IRCCmd c => c
    | .IRCCode n => pad3 (natDigits n)
    | .IRCAction dst => strB "PRIVMSG " ++ dst ++ (strB " :" ++ [1] ++ strB "ACTION")
    | .IRCCTCP sub dst => strB "PRIVMSG " ++ dst ++ (strB " :" ++ [1]) ++ sub
    | .IRCCTCPReply sub dst => strB "NOTICE " ++ dst ++ (strB " :" ++ [1]) ++ sub
  let argsPart : Bytes :=
    if l.command.is_ctcp then
      l.args.foldr (fun a acc => (32 :: a) ++ acc) [1]
    else
      match l.args.getLast? with
      | none => []
      | some last =>
        (l.args.dropLast.foldr (fun a acc => (32 :: a) ++ acc) []) ++
          (32 :: (if last.contains 32 then 58 :: last else last))
  pre ++ cmdPart ++ argsPart

/-- `chomp`: strip one trailing line terminator.  A final `'\r'` is
dropped; a final `'\n'` is dropped together with a `'\r'` right before
it when present; anything else is left alone. -/
def chomp (s : Bytes) : Bytes :=
  match s.getLast? with
  | none => s
  | some b =>
    if b = 13 then s.dropLast
    else if b = 10 then
      if s.length > 1 ∧ s.get? (s.length - 2) = some 13 then
        s.take (s.length - 2)
      else s.dropLast
    else s

/-- The `Conn` struct.  The writer channel is modelled as the list of
frames handed to it so far; `write_tx = none` is the disconnected
state.  (In the source a failed channel send also clears the handle; in
this pure model sends to a live channel always succeed.) -/
structure Conn where
  host : Bytes
  write_tx : Option (List Bytes)
  logged_in : Bool
  user : User
deriving DecidableEq, Repr

/-- `Conn::is_connected`. -/
def Conn.is_connected (c : Conn) : Bool := c.write_tx.isSome

/-- The bounded `append` helper inside `Conn::send_command`:
`clone_from_slice` copies at most the free space of the 510-byte
buffer, so appending writes at most `510 - buf.len()` bytes. -/
def appendB (buf : Bytes) (v : Bytes) : Bytes := buf ++ v.take (510 - buf.length)

/-- The command header `Conn::send_command` writes first.  It follows
the source exactly, including the field binding of the CTCP variants
there (`IRCCTCP(ref dst, _)` and `IRCCTCPReply(dst, action)` bind the
first field as the destination slot of the header, unlike `to_raw`). -/
def commandHeader (cmd : Command) : Bytes :=
  let buf : Bytes := []
  match cmd with
  | .IRCCmd c => appendB buf c
  | .IRCCode code => appendB buf (natDigits code)
  | .IRCAction dst =>
    appendB (appendB (appendB (appendB buf (strB "PRIVMSG ")) dst) (strB " :" ++ [1]))
      (strB "ACTION")
  | .IRCCTCP dst action =>
    appendB (appendB (appendB (appendB buf (strB "PRIVMSG ")) dst) (strB " :" ++ [1]))
      action
  | .IRCCTCPReply dst action =>
    appendB (appendB (appendB (appendB buf (strB "NOTICE ")) dst) (strB " :" ++ [1]))
      action

/-- The argument section `Conn::send_command` writes after the header:
every arg but the last space-prefixed, then `" :"` or `" "` depending
on `add_colon`, then the last arg. -/
def appendArgsB (buf : Bytes) (args : List Bytes) (add_colon : Bool) : Bytes :=
  if args.isEmpty then buf
  else
    let buf := args.dropLast.foldl (fun b a => appendB (appendB b [32]) a) buf
    let buf := if add_colon then appendB buf (strB " :") else appendB buf [32]
    appendB buf (args.getLast?.getD [])

/-- The frame body `Conn::send_command` builds in the first 510 bytes
of its buffer. -/
def sendCommandBody (cmd : Command) (args : List Bytes) (add_colon : Bool) : Bytes :=
  let buf := commandHeader cmd
  let buf := appendArgsB buf args add_colon
  if cmd.is_ctcp then appendB buf [1] else buf

/-- The full frame `Conn::send_command` hands to the writer channel:
the truncated body with `"\r\n"` attached. -/
def sendCommandFrame (cmd : Command) (args : List Bytes) (add_colon : Bool) : Bytes :=
  sendCommandBody cmd args add_colon ++ [13, 10]

/-- `Conn::send_command`: no-op when the writer handle is absent, else
hand the built frame to the writer channel. -/
def Conn.send_command (c : Conn) (cmd : Command) (args : List Bytes)
    (add_colon : Bool) : Conn :=
  match c.write_tx with
  | none => c
  | some q => { c with write_tx := some (q ++ [sendCommandFrame cmd args add_colon]) }

/-- The frame `Conn::send_raw` builds for a non-empty chomped input:
truncate to 510 bytes, append `"\r\n"`. -/
def sendRawFrame (raw : Bytes) : Bytes := (chomp raw).take 510 ++ [13, 10]

/-- `Conn::send_raw`: chomp, return on empty, else no-op without a
writer handle, else hand the truncated CRLF-terminated frame over. -/
def Conn.send_raw (c : Conn) (raw : Bytes) : Conn :=
  if chomp raw = [] then c
  else
    match c.write_tx with
    | none => c
    | some q => { c with write_tx := some (q ++ [sendRawFrame raw]) }

/-- The drain loop at the end of `Conn::run`: `try_recv` until the
channel reports empty/disconnected, collecting the buffered commands in
order.  The channel is modelled as the list of commands buffered in it
when the event loop exits. -/
def drainLoop {α : Type} : List α → List α
  | [] => []
  | x :: xs => x :: drainLoop xs

/-- The shutdown tail of `Conn::run` (source lines 278-307): drain the
command channel into a local list, clear the writer handle, then run
each drained command in order on the now-disconnected connection.
Commands are state transformers on `Conn` (the payload carries no
library semantics). -/
def Conn.runShutdown (c : Conn) (commands : Option (List (Conn → Conn))) : Conn :=
  let procs := commands.map drainLoop
  let c2 := { c with write_tx := none }
  match procs with
  | none => c2
  | some ps => ps.foldl (fun s p => p s) c2

/-! ### Claim-side definitions

These formalise the wording of individual claims, to be compared with
the source-derived definitions above. -/

/-- Condition (a) of claim C1: no arg other than the last contains a
space byte. -/
def condA (l : Line) : Bool := l.args.dropLast.all (fun a => !(a.contains 32))

/-- Condition (b) of claim C1: the last arg is colon-prefixed on the
wire (`to_raw` colon-prefixes exactly the last arg of a non-CTCP
command containing a space) iff it contains a space or is the CTCP
payload. -/
def condB (l : Line) : Bool :=
  match l.args.getLast? with
  | none => true
  | some last =>
    ((!l.command.is_ctcp) && last.contains 32) ==
      (last.contains 32 || l.command.is_ctcp)

/-- Claim C9's description of the strip `send_raw` performs: remove a
trailing `"\r\n"` or a trailing `"\r"`, nothing else. -/
def chompClaimC9 (s : Bytes) : Bytes :=
  if s.length ≥ 2 ∧ s.drop (s.length - 2) = [13, 10] then s.take (s.length - 2)
  else if s.getLast? = some 13 then s.dropLast
  else s

/-- The amended description of the strip: remove one trailing line
terminator, `"\r\n"`, `"\r"` or `"\n"`. -/
def chompAmended (s : Bytes) : Bytes :=
  if s.length ≥ 2 ∧ s.drop (s.length - 2) = [13, 10] then s.take (s.length - 2)
  else if s.getLast? = some 13 ∨ s.getLast? = some 10 then s.dropLast
  else s

/-- The command region of a frame as `Line::parse` stage 1 sees it:
what remains after the prefix, or `none` when a `':'`-led line has no
space at all. -/
def commandRegion (v : Bytes) : Option Bytes :=
  if v.head? = some 58 then (positionElem 32 v).map (fun idx => v.drop (idx + 1))
  else some v

/-- The command token stage 2 cuts out of the command region. -/
def commandToken (w : Bytes) : Bytes :=
  match positionElem 32 w with
  | none => w
  | some idx => w.take idx

/-- A command token stage 3 accepts: three ASCII digits, or all ASCII
alphabetic. -/
def goodToken (c : Bytes) : Bool := (decide (c.length = 3) && c.all isDigitB) || c.all isAlphaB

/-- Claim C5's characterisation of rejected frames: malformed command
region — a `':'`-led line without a space, an empty command token
(space at position 0 of the region), or a token that is neither three
digits nor all alphabetic. -/
def rejects (v : Bytes) : Prop :=
  match commandRegion v with
  | none => True
  | some w => positionElem 32 w = some 0 ∨ goodToken (commandToken w) = false

/-- Sufficient well-formedness for the amended round-trip claim C1:
* prefix bytes contain no space;
* `IRCCmd` names are non-empty and all ASCII alphabetic; for
  `PRIVMSG`/`NOTICE` the last arg must not start with `0x01`;
* `IRCCode` values are below 1000;
* non-CTCP args other than the last contain no space and do not start
  with `':'`; a last arg without a space must be non-empty and must not
  start with `':'`;
* CTCP destinations contain no space and do not start with `':'`;
  CTCP sub-commands contain no space; an `IRCCTCP` sub-command is not
  `"ACTION"`; CTCP commands carry at most one arg (`IRCAction` exactly
  one). -/
def Line.wellFormed (l : Line) : Bool :=
  (match l.pfx with
   | none => true
   | some u => !(u.raw.contains 32)) &&
  (match l.command with
   | .IRCCmd c =>
     !(decide (c = [])) && c.all isAlphaB &&
     l.args.dropLast.all (fun a => !(a.contains 32) && !(decide (a.head? = some 58))) &&
     (match l.args.getLast? with
      | none => true
      | some a =>
        (!(decide (c = strB "PRIVMSG") || decide (c = strB "NOTICE")) ||
          !(decide (a.head? = some 1))) &&
        (a.contains 32 || (!(decide (a = [])) && !(decide (a.head? = some 58)))))
   | .IRCCode n =>
     decide (n < 1000) &&
     l.args.dropLast.all (fun a => !(a.contains 32) && !(decide (a.head? = some 58))) &&
     (match l.args.getLast? with
      | none => true
      | some a => a.contains 32 || (!(decide (a = [])) && !(decide (a.head? = some 58))))
   | .IRCAction dst =>
     !(dst.contains 32) && !(decide (dst.head? = some 58)) && decide (l.args.length = 1)
   | .IRCCTCP sub dst =>
     !(dst.contains 32) && !(decide (dst.head? = some 58)) &&
     !(sub.contains 32) && !(decide (sub = strB "ACTION")) && decide (l.args.length ≤ 1)
   | .IRCCTCPReply sub dst =>
     !(dst.contains 32) && !(decide (dst.head? = some 58)) &&
     !(sub.contains 32) && decide (l.args.length ≤ 1))

/-! ### Byte-class and helper lemmas -/

theorem isAlphaB_not_digit {b : Nat} (h : isAlphaB b = true) : isDigitB b = false := by
  simp only [isAlphaB, isDigitB, decide_eq_true_eq, decide_eq_false_iff_not] at *
  omega

theorem isAlphaB_ne_space {b : Nat} (h : isAlphaB b = true) : b ≠ 32 := by
  simp only [isAlphaB, decide_eq_true_eq] at h
  omega

theorem isAlphaB_ne_colon {b : Nat} (h : isAlphaB b = true) : b ≠ 58 := by
  simp only [isAlphaB, decide_eq_true_eq] at h
  omega

theorem all_alpha_not_mem_space {c : Bytes} (h : c.all isAlphaB = true) : 32 ∉ c := by
  intro hm
  exact isAlphaB_ne_space (List.all_eq_true.mp h 32 hm) rfl

theorem positionElem_of_not_mem {b : Nat} : ∀ {s : Bytes}, b ∉ s → positionElem b s = none
  | [], _ => rfl
  | c :: cs, h => by
    have hc : c ≠ b := fun hcb => h (hcb ▸ List.mem_cons_self c cs)
    have hcs : b ∉ cs := fun hm => h (List.mem_cons_of_mem c hm)
    simp [positionElem, hc, positionElem_of_not_mem hcs]

theorem positionElem_append {b : Nat} :
    ∀ {s : Bytes}, b ∉ s → ∀ t : Bytes, positionElem b (s ++ b :: t) = some s.length
  | [], _, t => by simp [positionElem]
  | c :: cs, h, t => by
    have hc : c ≠ b := fun hcb => h (hcb ▸ List.mem_cons_self c cs)
    have hcs : b ∉ cs := fun hm => h (List.mem_cons_of_mem c hm)
    simp [positionElem, hc, positionElem_append hcs t]

theorem take_append_length {s : Bytes} (t : Bytes) : (s ++ t).take s.length = s := by
  simp

theorem drop_append_length {s : Bytes} (t : Bytes) : (s ++ t).drop s.length = t := by
  simp

theorem drop_append_length_succ {s : Bytes} (b : Nat) (t : Bytes) :
    (s ++ b :: t).drop (s.length + 1) = t := by
  have : s ++ b :: t = (s ++ [b]) ++ t := by simp
  rw [this]
  have hl : (s ++ [b]).length = s.length + 1 := by simp
  rw [← hl, drop_append_length]

theorem take_append_cons {s : Bytes} (b : Nat) (t : Bytes) :
    (s ++ b :: t).take s.length = s := by
  have : s ++ b :: t = (s ++ [b]) ++ t := by simp
  rw [this, List.take_append_eq_append_take]
  simp

/-! ### Argument-loop lemmas -/

theorem parseArgsGo_congr :
    ∀ (fuel fuel' : Nat) (v : Bytes), v.length ≤ fuel → v.length ≤ fuel' →
      parseArgsGo fuel v = parseArgsGo fuel' v
  | 0, 0, _, _, _ => rfl
  | 0, _ + 1, v, h, _ => by
    have : v = [] := List.length_eq_zero.mp (Nat.le_zero.mp h)
    simp [this, parseArgsGo]
  | _ + 1, 0, v, _, h' => by
    have : v = [] := List.length_eq_zero.mp (Nat.le_zero.mp h')
    simp [this, parseArgsGo]
  | fuel + 1, fuel' + 1, v, h, h' => by
    by_cases hv : v = []
    · simp [hv, parseArgsGo]
    · simp only [parseArgsGo, if_neg hv]
      by_cases hh : v.head? = some 58
      · simp [hh]
      · simp only [if_neg hh]
        cases hpos : positionElem 32 v with
        | none => rfl
        | some idx =>
          have hlen : (v.drop (idx + 1)).length ≤ fuel := by
            have hv1 : 1 ≤ v.length := by
              cases v with
              | nil => exact absurd rfl hv
              | cons a as => simp
            simp only [List.length_drop]
            omega
          have hlen' : (v.drop (idx + 1)).length ≤ fuel' := by
            have hv1 : 1 ≤ v.length := by
              cases v with
              | nil => exact absurd rfl hv
              | cons a as => simp
            simp only [List.length_drop]
            omega
          show List.take idx v :: parseArgsGo fuel (v.drop (idx + 1)) =
            List.take idx v :: parseArgsGo fuel' (v.drop (idx + 1))
          rw [parseArgsGo_congr fuel fuel' _ hlen hlen']

theorem parseArgs_eq_go {fuel : Nat} {v : Bytes} (h : v.length ≤ fuel) :
    parseArgs v = parseArgsGo fuel v :=
  parseArgsGo_congr v.length fuel v (Nat.le_refl _) h

theorem parseArgs_nil : parseArgs [] = [] := rfl

/-- Lemma C: a leading `':'` swallows the rest as the single final arg. -/
theorem parseArgs_colon (t : Bytes) : parseArgs (58 :: t) = [t] := by
  simp [parseArgs, parseArgsGo]

/-- Lemma B: a non-empty space-free arg not led by `':'` is the single arg. -/
theorem parseArgs_single {a : Bytes} (hne : a ≠ []) (hsp : 32 ∉ a)
    (hc : a.head? ≠ some 58) : parseArgs a = [a] := by
  have hpos : positionElem 32 a = none := positionElem_of_not_mem hsp
  cases a with
  | nil => exact absurd rfl hne
  | cons b bs =>
    have hb : b ≠ 58 := by simpa using hc
    simp [parseArgs, parseArgsGo, hb, hpos]

/-- Lemma A: a space-free arg not led by `':'` followed by a space peels off. -/
theorem parseArgs_cons {a : Bytes} (hsp : 32 ∉ a) (hc : a.head? ≠ some 58)
    (rest : Bytes) : parseArgs (a ++ 32 :: rest) = a :: parseArgs rest := by
  have hlen : (a ++ 32 :: rest).length = a.length + rest.length + 1 := by
    simp; omega
  have hfuel : (a ++ 32 :: rest).length ≤ a.length + rest.length + 1 := by omega
  rw [parseArgs_eq_go hfuel]
  have hne : a ++ 32 :: rest ≠ [] := by
    intro hcontra
    have := congrArg List.length hcontra
    simp at this
  have hpos : positionElem 32 (a ++ 32 :: rest) = some a.length :=
    positionElem_append hsp rest
  have hhead : (a ++ 32 :: rest).head? ≠ some 58 := by
    cases a with
    | nil => simp
    | cons b bs => simpa using hc
  simp only [parseArgsGo, if_neg hne, if_neg hhead, hpos]
  rw [take_append_cons, drop_append_length_succ]
  congr 1
  exact (parseArgs_eq_go (by omega)).symm

/-- The wire form of the non-final args followed by the final-arg bytes:
used to restructure `to_raw`'s output for parsing. -/
def renderRest (ms : List Bytes) (lp : Bytes) : Bytes :=
  match ms with
  | [] => lp
  | a :: as => a ++ 32 :: renderRest as lp

theorem foldr_sep (ms : List Bytes) (lp : Bytes) :
    ms.foldr (fun a acc => 32 :: (a ++ acc)) [] ++ 32 :: lp = 32 :: renderRest ms lp := by
  induction ms with
  | nil => simp [renderRest]
  | cons a as ih => simp [renderRest, ← ih]

theorem parseArgs_renderRest {ms : List Bytes}
    (h : ∀ a ∈ ms, 32 ∉ a ∧ a.head? ≠ some 58) (lp : Bytes) :
    parseArgs (renderRest ms lp) = ms ++ parseArgs lp := by
  induction ms with
  | nil => simp [renderRest]
  | cons a as ih =>
    have ha := h a (List.mem_cons_self a as)
    have has : ∀ x ∈ as, 32 ∉ x ∧ x.head? ≠ some 58 :=
      fun x hx => h x (List.mem_cons_of_mem a hx)
    simp only [renderRest, parseArgs_cons ha.1 ha.2, ih has, List.cons_append]

/-! ### Decimal-digit lemmas -/

theorem natDigitsGo_congr :
    ∀ (fuel fuel' n : Nat), n ≤ fuel → n ≤ fuel' →
      natDigitsGo fuel n = natDigitsGo fuel' n
  | 0, 0, _, _, _ => rfl
  | 0, _ + 1, n, h, _ => by
    have : n = 0 := Nat.le_zero.mp h
    simp [this, natDigitsGo]
  | _ + 1, 0, n, _, h' => by
    have : n = 0 := Nat.le_zero.mp h'
    simp [this, natDigitsGo]
  | fuel + 1, fuel' + 1, n, h, h' => by
    by_cases hn : n = 0
    · simp [hn, natDigitsGo]
    · simp only [natDigitsGo, if_neg hn]
      have hd : n / 10 ≤ fuel := by omega
      have hd' : n / 10 ≤ fuel' := by omega
      rw [natDigitsGo_congr fuel fuel' (n / 10) hd hd']

theorem natDigitsGo_all_digits :
    ∀ (fuel n : Nat), ∀ b ∈ natDigitsGo fuel n, 48 ≤ b ∧ b ≤ 57
  | 0, _, b, hb => by simp [natDigitsGo] at hb
  | fuel + 1, n, b, hb => by
    by_cases hn : n = 0
    · simp [hn, natDigitsGo] at hb
    · simp only [natDigitsGo, if_neg hn, List.mem_append, List.mem_singleton] at hb
      rcases hb with hb | hb
      · exact natDigitsGo_all_digits fuel (n / 10) b hb
      · subst hb
        have : n % 10 < 10 := Nat.mod_lt _ (by omega)
        omega

theorem digitsToNat_append_digit (xs : Bytes) (d : Nat) :
    digitsToNat (xs ++ [d]) = 10 * digitsToNat xs + (d - 48) := by
  simp [digitsToNat, List.foldl_append]
  omega

theorem digitsToNat_natDigitsGo :
    ∀ (fuel n : Nat), n ≤ fuel → digitsToNat (natDigitsGo fuel n) = n
  | 0, n, h => by
    have : n = 0 := Nat.le_zero.mp h
    simp [this, natDigitsGo, digitsToNat]
  | fuel + 1, n, h => by
    by_cases hn : n = 0
    · simp [hn, natDigitsGo, digitsToNat]
    · have hd : n / 10 ≤ fuel := by omega
      rw [natDigitsGo, if_neg hn, digitsToNat_append_digit,
        digitsToNat_natDigitsGo fuel (n / 10) hd]
      omega

theorem digitsToNat_natDigits (n : Nat) : digitsToNat (natDigits n) = n := by
  by_cases hn : n = 0
  · simp [hn, natDigits, digitsToNat]
  · rw [natDigits, if_neg hn, digitsToNat_natDigitsGo n n (Nat.le_refl n)]

theorem natDigitsGo_length_le :
    ∀ (fuel n k : Nat), n ≤ fuel → n < 10 ^ k → (natDigitsGo fuel n).length ≤ k
  | 0, _, _, _, _ => by simp [natDigitsGo]
  | fuel + 1, n, k, h, hk => by
    by_cases hn : n = 0
    · simp [hn, natDigitsGo]
    · have hkpos : k ≠ 0 := by
        intro h0
        rw [h0, pow_zero] at hk
        omega
      obtain ⟨k', rfl⟩ := Nat.exists_eq_succ_of_ne_zero hkpos
      have hd : n / 10 ≤ fuel := by omega
      have hdlt : n / 10 < 10 ^ k' := by
        rw [Nat.div_lt_iff_lt_mul (by omega)]
        calc n < 10 ^ (k' + 1) := hk
        _ = 10 ^ k' * 10 := by ring
      rw [natDigitsGo, if_neg hn]
      simp only [List.length_append, List.length_singleton]
      have := natDigitsGo_length_le fuel (n / 10) k' hd hdlt
      omega

theorem natDigitsGo_length_ge :
    ∀ (fuel n k : Nat), n ≤ fuel → 10 ^ k ≤ n → k + 1 ≤ (natDigitsGo fuel n).length
  | 0, n, k, h, hk => by
    have : n = 0 := Nat.le_zero.mp h
    subst this
    have : 1 ≤ 10 ^ k := Nat.one_le_pow _ _ (by omega)
    omega
  | fuel + 1, n, k, h, hk => by
    have hn : n ≠ 0 := by
      have : 1 ≤ 10 ^ k := Nat.one_le_pow _ _ (by omega)
      omega
    rw [natDigitsGo, if_neg hn]
    simp only [List.length_append, List.length_singleton]
    cases k with
    | zero => omega
    | succ k' =>
      have hd : n / 10 ≤ fuel := by omega
      have hge : 10 ^ k' ≤ n / 10 := by
        rw [Nat.le_div_iff_mul_le (by omega)]
        calc 10 ^ k' * 10 = 10 ^ (k' + 1) := by ring
        _ ≤ n := hk
      have := natDigitsGo_length_ge fuel (n / 10) k' hd hge
      omega

theorem natDigits_all_digits {n : Nat} : ∀ b ∈ natDigits n, 48 ≤ b ∧ b ≤ 57 := by
  by_cases hn : n = 0
  · simp [hn, natDigits]
  · rw [natDigits, if_neg hn]
    exact natDigitsGo_all_digits n n

theorem natDigits_length_le_three {n : Nat} (h : n < 1000) : (natDigits n).length ≤ 3 := by
  by_cases hn : n = 0
  · simp [hn, natDigits]
  · rw [natDigits, if_neg hn]
    exact natDigitsGo_length_le n n 3 (Nat.le_refl n) (by norm_num; omega)

theorem natDigits_length_ge_four {n : Nat} (h : 1000 ≤ n) : 4 ≤ (natDigits n).length := by
  have hn : n ≠ 0 := by omega
  rw [natDigits, if_neg hn]
  exact natDigitsGo_length_ge n n 3 (Nat.le_refl n) (by norm_num; omega)

theorem natDigits_ne_nil {n : Nat} : natDigits n ≠ [] := by
  by_cases hn : n = 0
  · simp [hn, natDigits]
  · rw [natDigits, if_neg hn]
    intro hcontra
    have := natDigitsGo_length_ge n n 0 (Nat.le_refl n) (by simpa using Nat.one_le_iff_ne_zero.mpr hn)
    rw [hcontra] at this
    simp at this

/-! ### Padding lemmas -/

theorem digitsToNat_replicate_zeros : ∀ (k : Nat) (v : Bytes),
    digitsToNat (List.replicate k 48 ++ v) = digitsToNat v
  | 0, v => by simp
  | k + 1, v => by
    have : List.replicate (k + 1) 48 ++ v = 48 :: (List.replicate k 48 ++ v) := by
      simp [List.replicate_succ]
    rw [this]
    show digitsToNat (48 :: (List.replicate k 48 ++ v)) = digitsToNat v
    have h1 : digitsToNat (48 :: (List.replicate k 48 ++ v)) =
        (List.replicate k 48 ++ v).foldl (fun acc b => acc * 10 + (b - 48)) 0 := by
      simp [digitsToNat]
    rw [h1]
    exact digitsToNat_replicate_zeros k v

theorem digitsToNat_pad3 (v : Bytes) : digitsToNat (pad3 v) = digitsToNat v :=
  digitsToNat_replicate_zeros _ v

theorem pad3_length (v : Bytes) : (pad3 v).length = max 3 v.length := by
  simp only [pad3, List.length_append, List.length_replicate]
  omega

theorem pad3_all_digits {v : Bytes} (h : ∀ b ∈ v, 48 ≤ b ∧ b ≤ 57) :
    ∀ b ∈ pad3 v, 48 ≤ b ∧ b ≤ 57 := by
  intro b hb
  simp only [pad3, List.mem_append, List.mem_replicate] at hb
  rcases hb with hb | hb
  · omega
  · exact h b hb

theorem pad3_natDigits_length {n : Nat} (h : n < 1000) :
    (pad3 (natDigits n)).length = 3 := by
  rw [pad3_length]
  have := natDigits_length_le_three h
  omega

theorem pad3_not_mem_space {v : Bytes} (h : ∀ b ∈ v, 48 ≤ b ∧ b ≤ 57) :
    32 ∉ pad3 v := by
  intro hm
  have := pad3_all_digits h 32 hm
  omega

theorem pad3_head_ne_colon {v : Bytes} (h : ∀ b ∈ v, 48 ≤ b ∧ b ≤ 57) :
    (pad3 v).head? ≠ some 58 := by
  intro hc
  have hmem : 58 ∈ pad3 v := by
    cases hpv : pad3 v with
    | nil => rw [hpv] at hc; simp at hc
    | cons b bs =>
      rw [hpv] at hc
      simp at hc
      simp [hc]
  have := pad3_all_digits h 58 hmem
  omega

theorem pad3_ne_nil {v : Bytes} : pad3 v ≠ [] := by
  intro hcontra
  have := congrArg List.length hcontra
  rw [pad3_length] at this
  simp at this

/-! ### Parse-stage lemmas -/

theorem head?_append_left {s : Bytes} (h : s ≠ []) (t : Bytes) :
    (s ++ t).head? = s.head? := by
  cases s with
  | nil => exact absurd rfl h
  | cons b bs => rfl

theorem contains_eq_false_iff {a : Bytes} {b : Nat} : a.contains b = false ↔ b ∉ a := by
  induction a with
  | nil => simp
  | cons x xs ih =>
    simp only [List.contains_cons, Bool.or_eq_false_iff, beq_eq_false_iff_ne, ne_eq,
      List.mem_cons, not_or, ih]

theorem parse_noPrefix {v : Bytes} (h : v.head? ≠ some 58) :
    Line.parse v = parseStage2 none v := by
  simp [Line.parse, h]

theorem parse_withPrefix {u : Bytes} (hu : 32 ∉ u) (body : Bytes) :
    Line.parse (58 :: (u ++ 32 :: body)) = parseStage2 (some ⟨u⟩) body := by
  have hpos : positionElem 32 (58 :: (u ++ 32 :: body)) = some (u.length + 1) := by
    have := positionElem_append hu body
    simp [positionElem, this]
  have hhead : (58 :: (u ++ 32 :: body)).head? = some 58 := rfl
  rw [Line.parse, if_pos hhead, hpos]
  have h1 : ((58 :: (u ++ 32 :: body)).drop 1).take (u.length + 1 - 1) = u := by
    simp only [List.drop_succ_cons, List.drop_zero, Nat.add_sub_cancel]
    exact take_append_cons 32 body
  have h2 : (58 :: (u ++ 32 :: body)).drop (u.length + 1 + 1) = body := by
    show (u ++ 32 :: body).drop (u.length + 1) = body
    exact drop_append_length_succ 32 body
  show parseStage2
      (some (User.parse (((58 :: (u ++ 32 :: body)).drop 1).take (u.length + 1 - 1))))
      ((58 :: (u ++ 32 :: body)).drop (u.length + 1 + 1)) = parseStage2 (some ⟨u⟩) body
  rw [h1, h2]
  rfl

/-- The prefix bytes `to_raw` emits. -/
def renderPfx (pfx : Option User) : Bytes :=
  match pfx with
  | some u => (58 :: u.raw) ++ [32]
  | none => []

theorem parse_pre (pfx : Option User)
    (hp : ∀ u, pfx = some u → 32 ∉ u.raw) {body : Bytes}
    (hb : body.head? ≠ some 58) :
    Line.parse (renderPfx pfx ++ body) = parseStage2 pfx body := by
  cases pfx with
  | none => simpa [renderPfx] using parse_noPrefix hb
  | some u =>
    cases u with
    | mk raw =>
      have hu : 32 ∉ raw := hp ⟨raw⟩ rfl
      have heq : renderPfx (some ⟨raw⟩) ++ body = 58 :: (raw ++ 32 :: body) := by
        simp [renderPfx]
      rw [heq]
      exact parse_withPrefix hu body

theorem parseStage2_token (pfx : Option User) {t : Bytes} (ht : 32 ∉ t) (hne : t ≠ [])
    (rest : Bytes) : parseStage2 pfx (t ++ 32 :: rest) = parseStage3 pfx t rest := by
  have hpos := positionElem_append ht rest
  simp only [parseStage2, hpos]
  have hlen : t.length ≠ 0 := fun h0 => hne (List.length_eq_zero.mp h0)
  rw [if_neg hlen, take_append_cons, drop_append_length_succ]

theorem parseStage2_nospace (pfx : Option User) {v : Bytes} (h : 32 ∉ v) :
    parseStage2 pfx v = parseStage3 pfx v [] := by
  simp only [parseStage2, positionElem_of_not_mem h]

theorem parseStage3_alpha (pfx : Option User) {c : Bytes} (hne : c ≠ [])
    (halpha : c.all isAlphaB = true) (v : Bytes) :
    parseStage3 pfx c v =
      parseStage4 pfx (.IRCCmd c)
        (decide (c = strB "PRIVMSG") || decide (c = strB "NOTICE")) v := by
  have hdig : (decide (c.length = 3) && c.all isDigitB) = false := by
    cases c with
    | nil => exact absurd rfl hne
    | cons b bs =>
      have hb : isAlphaB b = true := List.all_eq_true.mp halpha b (List.mem_cons_self _ _)
      have hd : isDigitB b = false := isAlphaB_not_digit hb
      simp [List.all_cons, hd]
  simp [parseStage3, hdig, halpha]

theorem parseStage3_code (pfx : Option User) {n : Nat} (h : n < 1000) (v : Bytes) :
    parseStage3 pfx (pad3 (natDigits n)) v = parseStage4 pfx (.IRCCode n) false v := by
  have hlen := pad3_natDigits_length h
  have hall : (pad3 (natDigits n)).all isDigitB = true := by
    rw [List.all_eq_true]
    intro b hb
    have hd := pad3_all_digits (fun b hb => natDigits_all_digits b hb) b hb
    simp only [isDigitB, decide_eq_true_eq]
    omega
  simp [parseStage3, hlen, hall, digitsToNat_pad3, digitsToNat_natDigits]

theorem lastStartsCtcp_concat (args : List Bytes) (t : Bytes) :
    lastStartsCtcp (args ++ [t]) = decide (t.head? = some 1) := by
  simp [lastStartsCtcp, List.getLast?_concat]

theorem parseStage4_eq (pfx : Option User) (cmd : Command) (ck : Bool) (v : Bytes) :
    parseStage4 pfx cmd ck v =
      if ck && lastStartsCtcp (parseArgs v) then
        match ctcpRewrite cmd (parseArgs v) with
        | none => .crash
        | some (c2, a2) => .ok ⟨pfx, c2, a2⟩
      else .ok ⟨pfx, cmd, parseArgs v⟩ := rfl

theorem parseStage4_plain (pfx : Option User) (cmd : Command) (ck : Bool)
    {ms : List Bytes} {a : Bytes}
    (hms : ∀ x ∈ ms, 32 ∉ x ∧ x.head? ≠ some 58)
    (ha : a.contains 32 = true ∨ (a ≠ [] ∧ a.head? ≠ some 58))
    (hck : ck = true → a.head? ≠ some 1) :
    parseStage4 pfx cmd ck (renderRest ms (if a.contains 32 then 58 :: a else a)) =
      .ok ⟨pfx, cmd, ms ++ [a]⟩ := by
  have hargs : parseArgs (renderRest ms (if a.contains 32 then 58 :: a else a)) = ms ++ [a] := by
    rw [parseArgs_renderRest hms]
    congr 1
    by_cases hsp : a.contains 32 = true
    · rw [if_pos hsp]
      exact parseArgs_colon a
    · rw [if_neg hsp]
      rcases ha with h | ⟨hne, hc⟩
      · exact absurd h hsp
      · have hmem : 32 ∉ a := contains_eq_false_iff.mp (Bool.eq_false_iff.mpr hsp)
        exact parseArgs_single hne hmem hc
  have hcond : (ck && lastStartsCtcp (ms ++ [a])) = false := by
    cases hckb : ck with
    | false => simp [hckb]
    | true => simp [hckb, lastStartsCtcp_concat, hck hckb]
  rw [parseStage4_eq, hargs, hcond]
  simp

theorem ctcpStrip_closed (mid : Bytes) : ctcpStrip ((1 :: mid) ++ [1]) = mid := by
  have hlen : ((1 :: mid) ++ [1]).length = mid.length + 2 := by simp
  have hlast : ((1 :: mid) ++ [1]).getLast? = some 1 := List.getLast?_concat _
  have hcond : ((1 :: mid) ++ [1]).length > 1 ∧ ((1 :: mid) ++ [1]).getLast? = some 1 :=
    ⟨by rw [hlen]; omega, hlast⟩
  rw [ctcpStrip, if_pos hcond, hlen]
  show (mid ++ [1]).take (mid.length + 2 - 2) = mid
  have hs : mid.length + 2 - 2 = mid.length := by omega
  rw [hs]
  exact take_append_length [1]

theorem ctcpRewrite_closed_nopayload (command : Command) (dst sub : Bytes)
    (hsub : 32 ∉ sub) :
    ctcpRewrite command [dst, 1 :: (sub ++ [1])] =
      match command with
      | .IRCCmd c =>
        if c = strB "PRIVMSG" then
          if sub = strB "ACTION" then some (.IRCAction dst, [[]])
          else some (.IRCCTCP sub dst, [])
        else if c = strB "NOTICE" then some (.IRCCTCPReply sub dst, ([] : List Bytes))
        else none
      | _ => none := by
  have hpos : positionElem 32 sub = none := positionElem_of_not_mem hsub
  have hstrip : ctcpStrip (1 :: (sub ++ [1])) = sub := by
    have := ctcpStrip_closed sub
    simpa using this
  simp [ctcpRewrite, hstrip, hpos]

theorem ctcpRewrite_closed_payload (command : Command) (dst sub p : Bytes)
    (hsub : 32 ∉ sub) :
    ctcpRewrite command [dst, 1 :: (sub ++ 32 :: (p ++ [1]))] =
      match command with
      | .IRCCmd c =>
        if c = strB "PRIVMSG" then
          if sub = strB "ACTION" then some (.IRCAction dst, [p])
          else some (.IRCCTCP sub dst, [p])
        else if c = strB "NOTICE" then some (.IRCCTCPReply sub dst, [p])
        else none
      | _ => none := by
  have hpos : positionElem 32 (sub ++ 32 :: p) = some sub.length :=
    positionElem_append hsub p
  have hstrip : ctcpStrip (1 :: (sub ++ 32 :: (p ++ [1]))) = sub ++ 32 :: p := by
    have := ctcpStrip_closed (sub ++ 32 :: p)
    simpa using this
  simp [ctcpRewrite, hstrip, hpos, take_append_cons, drop_append_length_succ]

/-! ### Round-trip lemmas, one per command shape -/

theorem alpha_head_ne_colon {c : Bytes} (hne : c ≠ []) (halpha : c.all isAlphaB = true) :
    c.head? ≠ some 58 := by
  cases c with
  | nil => exact absurd rfl hne
  | cons b bs =>
    have hb : isAlphaB b = true := List.all_eq_true.mp halpha b (List.mem_cons_self _ _)
    have := isAlphaB_ne_colon hb
    simp [this]

theorem lastStartsCtcp_nil : lastStartsCtcp [] = false := rfl

theorem strB_PRIVMSG_sp : strB "PRIVMSG " = strB "PRIVMSG" ++ [32] := by decide

theorem strB_NOTICE_sp : strB "NOTICE " = strB "NOTICE" ++ [32] := by decide

theorem strB_sp_colon : strB " :" = [32, 58] := by decide

theorem ck_PRIVMSG :
    (decide (strB "PRIVMSG" = strB "PRIVMSG") || decide (strB "PRIVMSG" = strB "NOTICE")) = true := by
  decide

theorem ck_NOTICE :
    (decide (strB "NOTICE" = strB "PRIVMSG") || decide (strB "NOTICE" = strB "NOTICE")) = true := by
  decide

/-- Parse a well-shaped non-CTCP wire line back to its components. -/
theorem parse_plainWire (pfx : Option User) (hp : ∀ u, pfx = some u → 32 ∉ u.raw)
    {tok : Bytes} (htokne : tok ≠ []) (htoksp : 32 ∉ tok)
    (htokhead : tok.head? ≠ some 58)
    (cmd : Command) (ck : Bool)
    (hstage3 : ∀ v : Bytes, parseStage3 pfx tok v = parseStage4 pfx cmd ck v)
    {ms : List Bytes} {a : Bytes}
    (hms : ∀ x ∈ ms, 32 ∉ x ∧ x.head? ≠ some 58)
    (ha : a.contains 32 = true ∨ (a ≠ [] ∧ a.head? ≠ some 58))
    (hck : ck = true → a.head? ≠ some 1) :
    Line.parse (renderPfx pfx ++
        (tok ++ 32 :: renderRest ms (if a.contains 32 then 58 :: a else a))) =
      .ok ⟨pfx, cmd, ms ++ [a]⟩ := by
  have hb : (tok ++ 32 :: renderRest ms (if a.contains 32 then 58 :: a else a)).head? ≠
      some 58 := by
    rw [head?_append_left htokne]
    exact htokhead
  rw [parse_pre pfx hp hb, parseStage2_token pfx htoksp htokne, hstage3]
  exact parseStage4_plain pfx cmd ck hms ha hck

/-- Parse a well-shaped empty-args non-CTCP wire line. -/
theorem parse_plainWireNoArgs (pfx : Option User) (hp : ∀ u, pfx = some u → 32 ∉ u.raw)
    {tok : Bytes} (_htokne : tok ≠ []) (htoksp : 32 ∉ tok)
    (htokhead : tok.head? ≠ some 58)
    (cmd : Command) (ck : Bool)
    (hstage3 : ∀ v : Bytes, parseStage3 pfx tok v = parseStage4 pfx cmd ck v) :
    Line.parse (renderPfx pfx ++ tok) = .ok ⟨pfx, cmd, []⟩ := by
  rw [parse_pre pfx hp htokhead, parseStage2_nospace pfx htoksp, hstage3, parseStage4_eq]
  simp [parseArgs_nil, lastStartsCtcp_nil]

/-- Parse a well-shaped CTCP wire line down to the CTCP rewrite step. -/
theorem parse_ctcpWire (pfx : Option User) (hp : ∀ u, pfx = some u → 32 ∉ u.raw)
    {tok : Bytes} (htokne : tok ≠ []) (htoksp : 32 ∉ tok)
    (htokalpha : tok.all isAlphaB = true)
    (hck : (decide (tok = strB "PRIVMSG") || decide (tok = strB "NOTICE")) = true)
    {dst : Bytes} (hdsp : 32 ∉ dst) (hdc : dst.head? ≠ some 58)
    (mid : Bytes) :
    Line.parse (renderPfx pfx ++ (tok ++ 32 :: (dst ++ 32 :: 58 :: 1 :: mid))) =
      (match ctcpRewrite (.IRCCmd tok) [dst, 1 :: mid] with
       | none => .crash
       | some (c2, a2) => .ok ⟨pfx, c2, a2⟩) := by
  have htokhead : tok.head? ≠ some 58 := alpha_head_ne_colon htokne htokalpha
  have hb : (tok ++ 32 :: (dst ++ 32 :: 58 :: 1 :: mid)).head? ≠ some 58 := by
    rw [head?_append_left htokne]
    exact htokhead
  rw [parse_pre pfx hp hb, parseStage2_token pfx htoksp htokne,
    parseStage3_alpha pfx htokne htokalpha, parseStage4_eq, hck]
  have hargs : parseArgs (dst ++ 32 :: 58 :: 1 :: mid) = [dst, 1 :: mid] := by
    rw [parseArgs_cons hdsp hdc, parseArgs_colon]
  rw [hargs]
  have hlsc : lastStartsCtcp [dst, 1 :: mid] = true := by
    have heq : ([dst] ++ [1 :: mid] : List Bytes) = [dst, 1 :: mid] := rfl
    rw [← heq, lastStartsCtcp_concat]
    simp
  rw [hlsc]
  simp

theorem eq_nil_or_append_last {α : Type} (l : List α) : l = [] ∨ ∃ ms a, l = ms ++ [a] := by
  rcases List.eq_nil_or_concat l with h | ⟨ms, a, h⟩
  · exact Or.inl h
  · exact Or.inr ⟨ms, a, by simpa [List.concat_eq_append] using h⟩

theorem roundtrip_cmd (pfx : Option User) (hp : ∀ u, pfx = some u → 32 ∉ u.raw)
    {c : Bytes} (hne : c ≠ []) (halpha : c.all isAlphaB = true)
    {args : List Bytes}
    (hmid : ∀ x ∈ args.dropLast, 32 ∉ x ∧ x.head? ≠ some 58)
    (hlast : ∀ a, args.getLast? = some a →
      ((decide (c = strB "PRIVMSG") || decide (c = strB "NOTICE")) = true →
        a.head? ≠ some 1) ∧
      (a.contains 32 = true ∨ (a ≠ [] ∧ a.head? ≠ some 58))) :
    Line.parse (Line.to_raw ⟨pfx, .IRCCmd c, args⟩) = .ok ⟨pfx, .IRCCmd c, args⟩ := by
  have hsp : 32 ∉ c := all_alpha_not_mem_space halpha
  have hhead : c.head? ≠ some 58 := alpha_head_ne_colon hne halpha
  have hstage3 := fun v => parseStage3_alpha pfx hne halpha v
  rcases eq_nil_or_append_last args with rfl | ⟨ms, a, rfl⟩
  · have hbody : Line.to_raw ⟨pfx, .IRCCmd c, []⟩ = renderPfx pfx ++ c := by
      cases pfx <;> simp [Line.to_raw, Command.is_ctcp, renderPfx]
    rw [hbody]
    exact parse_plainWireNoArgs pfx hp hne hsp hhead _ _ hstage3
  · have hl := hlast a (List.getLast?_concat _)
    have hbody : Line.to_raw ⟨pfx, .IRCCmd c, ms ++ [a]⟩ =
        renderPfx pfx ++ (c ++ 32 :: renderRest ms (if a.contains 32 then 58 :: a else a)) := by
      cases pfx <;>
        simp [Line.to_raw, Command.is_ctcp, renderPfx, List.dropLast_concat,
          List.getLast?_concat, foldr_sep]
    rw [hbody]
    have hmid' : ∀ x ∈ ms, 32 ∉ x ∧ x.head? ≠ some 58 := by
      intro x hx
      exact hmid x (by simpa [List.dropLast_concat] using hx)
    exact parse_plainWire pfx hp hne hsp hhead _ _ hstage3 hmid' hl.2 hl.1

theorem roundtrip_code (pfx : Option User) (hp : ∀ u, pfx = some u → 32 ∉ u.raw)
    {n : Nat} (hn : n < 1000) {args : List Bytes}
    (hmid : ∀ x ∈ args.dropLast, 32 ∉ x ∧ x.head? ≠ some 58)
    (hlast : ∀ a, args.getLast? = some a →
      a.contains 32 = true ∨ (a ≠ [] ∧ a.head? ≠ some 58)) :
    Line.parse (Line.to_raw ⟨pfx, .IRCCode n, args⟩) = .ok ⟨pfx, .IRCCode n, args⟩ := by
  have hdigits : ∀ b ∈ natDigits n, 48 ≤ b ∧ b ≤ 57 := fun b hb => natDigits_all_digits b hb
  have hsp : 32 ∉ pad3 (natDigits n) := pad3_not_mem_space hdigits
  have hhead : (pad3 (natDigits n)).head? ≠ some 58 := pad3_head_ne_colon hdigits
  have hne : pad3 (natDigits n) ≠ [] := pad3_ne_nil
  have hstage3 := fun v => parseStage3_code pfx hn v
  rcases eq_nil_or_append_last args with rfl | ⟨ms, a, rfl⟩
  · have hbody : Line.to_raw ⟨pfx, .IRCCode n, []⟩ = renderPfx pfx ++ pad3 (natDigits n) := by
      cases pfx <;> simp [Line.to_raw, Command.is_ctcp, renderPfx]
    rw [hbody]
    exact parse_plainWireNoArgs pfx hp hne hsp hhead _ _ hstage3
  · have hl := hlast a (List.getLast?_concat _)
    have hbody : Line.to_raw ⟨pfx, .IRCCode n, ms ++ [a]⟩ =
        renderPfx pfx ++
          (pad3 (natDigits n) ++ 32 :: renderRest ms (if a.contains 32 then 58 :: a else a)) := by
      cases pfx <;>
        simp [Line.to_raw, Command.is_ctcp, renderPfx, List.dropLast_concat,
          List.getLast?_concat, foldr_sep]
    rw [hbody]
    have hmid' : ∀ x ∈ ms, 32 ∉ x ∧ x.head? ≠ some 58 := by
      intro x hx
      exact hmid x (by simpa [List.dropLast_concat] using hx)
    exact parse_plainWire pfx hp hne hsp hhead _ _ hstage3 hmid' hl
      (fun hfalse => absurd hfalse (by simp))

theorem roundtrip_ctcp (pfx : Option User) (hp : ∀ u, pfx = some u → 32 ∉ u.raw)
    {sub dst : Bytes} (hdsp : 32 ∉ dst) (hdc : dst.head? ≠ some 58)
    (hsub : 32 ∉ sub) (hact : sub ≠ strB "ACTION") (args : List Bytes)
    (hargs : args = [] ∨ ∃ p, args = [p]) :
    Line.parse (Line.to_raw ⟨pfx, .IRCCTCP sub dst, args⟩) =
      .ok ⟨pfx, .IRCCTCP sub dst, args⟩ := by
  have hPn : strB "PRIVMSG" ≠ [] := by decide
  have hPs : 32 ∉ strB "PRIVMSG" := by decide
  have hPa : (strB "PRIVMSG").all isAlphaB = true := by decide
  rcases hargs with rfl | ⟨p, rfl⟩
  · have hbody : Line.to_raw ⟨pfx, .IRCCTCP sub dst, []⟩ =
        renderPfx pfx ++
          (strB "PRIVMSG" ++ 32 :: (dst ++ 32 :: 58 :: 1 :: (sub ++ [1]))) := by
      cases pfx <;>
        simp [Line.to_raw, Command.is_ctcp, renderPfx, strB_PRIVMSG_sp, strB_sp_colon]
    rw [hbody, parse_ctcpWire pfx hp hPn hPs hPa ck_PRIVMSG hdsp hdc (sub ++ [1]),
      ctcpRewrite_closed_nopayload _ _ _ hsub]
    simp [hact]
  · have hbody : Line.to_raw ⟨pfx, .IRCCTCP sub dst, [p]⟩ =
        renderPfx pfx ++
          (strB "PRIVMSG" ++ 32 :: (dst ++ 32 :: 58 :: 1 :: (sub ++ 32 :: (p ++ [1])))) := by
      cases pfx <;>
        simp [Line.to_raw, Command.is_ctcp, renderPfx, strB_PRIVMSG_sp, strB_sp_colon]
    rw [hbody, parse_ctcpWire pfx hp hPn hPs hPa ck_PRIVMSG hdsp hdc (sub ++ 32 :: (p ++ [1])),
      ctcpRewrite_closed_payload _ _ _ _ hsub]
    simp [hact]

theorem roundtrip_action (pfx : Option User) (hp : ∀ u, pfx = some u → 32 ∉ u.raw)
    {dst p : Bytes} (hdsp : 32 ∉ dst) (hdc : dst.head? ≠ some 58) :
    Line.parse (Line.to_raw ⟨pfx, .IRCAction dst, [p]⟩) =
      .ok ⟨pfx, .IRCAction dst, [p]⟩ := by
  have hPn : strB "PRIVMSG" ≠ [] := by decide
  have hPs : 32 ∉ strB "PRIVMSG" := by decide
  have hPa : (strB "PRIVMSG").all isAlphaB = true := by decide
  have hAs : 32 ∉ strB "ACTION" := by decide
  have hbody : Line.to_raw ⟨pfx, .IRCAction dst, [p]⟩ =
      renderPfx pfx ++
        (strB "PRIVMSG" ++
          32 :: (dst ++ 32 :: 58 :: 1 :: (strB "ACTION" ++ 32 :: (p ++ [1])))) := by
    cases pfx <;>
      simp [Line.to_raw, Command.is_ctcp, renderPfx, strB_PRIVMSG_sp, strB_sp_colon]
  rw [hbody, parse_ctcpWire pfx hp hPn hPs hPa ck_PRIVMSG hdsp hdc
      (strB "ACTION" ++ 32 :: (p ++ [1])),
    ctcpRewrite_closed_payload _ _ _ _ hAs]
  simp

theorem roundtrip_ctcpreply (pfx : Option User) (hp : ∀ u, pfx = some u → 32 ∉ u.raw)
    {sub dst : Bytes} (hdsp : 32 ∉ dst) (hdc : dst.head? ≠ some 58)
    (hsub : 32 ∉ sub) (args : List Bytes)
    (hargs : args = [] ∨ ∃ p, args = [p]) :
    Line.parse (Line.to_raw ⟨pfx, .IRCCTCPReply sub dst, args⟩) =
      .ok ⟨pfx, .IRCCTCPReply sub dst, args⟩ := by
  have hNn : strB "NOTICE" ≠ [] := by decide
  have hNs : 32 ∉ strB "NOTICE" := by decide
  have hNa : (strB "NOTICE").all isAlphaB = true := by decide
  have hNP : strB "NOTICE" ≠ strB "PRIVMSG" := by decide
  rcases hargs with rfl | ⟨p, rfl⟩
  · have hbody : Line.to_raw ⟨pfx, .IRCCTCPReply sub dst, []⟩ =
        renderPfx pfx ++
          (strB "NOTICE" ++ 32 :: (dst ++ 32 :: 58 :: 1 :: (sub ++ [1]))) := by
      cases pfx <;>
        simp [Line.to_raw, Command.is_ctcp, renderPfx, strB_NOTICE_sp, strB_sp_colon]
    rw [hbody, parse_ctcpWire pfx hp hNn hNs hNa ck_NOTICE hdsp hdc (sub ++ [1]),
      ctcpRewrite_closed_nopayload _ _ _ hsub]
    simp [hNP]
  · have hbody : Line.to_raw ⟨pfx, .IRCCTCPReply sub dst, [p]⟩ =
        renderPfx pfx ++
          (strB "NOTICE" ++ 32 :: (dst ++ 32 :: 58 :: 1 :: (sub ++ 32 :: (p ++ [1])))) := by
      cases pfx <;>
        simp [Line.to_raw, Command.is_ctcp, renderPfx, strB_NOTICE_sp, strB_sp_colon]
    rw [hbody, parse_ctcpWire pfx hp hNn hNs hNa ck_NOTICE hdsp hdc (sub ++ 32 :: (p ++ [1])),
      ctcpRewrite_closed_payload _ _ _ _ hsub]
    simp [hNP]

theorem bool_imp_helper : ∀ x y : Bool, (!x || !y) = true → x = true → y = false := by
  decide

theorem wellFormed_roundtrip (l : Line) (h : l.wellFormed = true) :
    Line.parse l.to_raw = .ok l := by
  obtain ⟨pfx, command, args⟩ := l
  simp only [Line.wellFormed, Bool.and_eq_true] at h
  obtain ⟨hpfx, hcmd⟩ := h
  have hp : ∀ u, pfx = some u → 32 ∉ u.raw := by
    intro u hu
    subst hu
    have hpfx' : (!(u.raw.contains 32)) = true := hpfx
    rw [Bool.not_eq_true'] at hpfx'
    exact contains_eq_false_iff.mp hpfx'
  cases command with
  | IRCCmd c =>
    have hcmd' : (!(decide (c = [])) && c.all isAlphaB &&
        args.dropLast.all
          (fun a => !(a.contains 32) && !(decide (a.head? = some 58))) &&
        (match args.getLast? with
         | none => true
         | some a =>
           (!(decide (c = strB "PRIVMSG") || decide (c = strB "NOTICE")) ||
             !(decide (a.head? = some 1))) &&
           (a.contains 32 || (!(decide (a = [])) && !(decide (a.head? = some 58)))))) =
        true := hcmd
    simp only [Bool.and_eq_true] at hcmd'
    obtain ⟨⟨⟨h1, h2⟩, h3⟩, h4⟩ := hcmd'
    have hne : c ≠ [] := by
      rw [Bool.not_eq_true'] at h1
      simpa using h1
    have hmid : ∀ x ∈ args.dropLast, 32 ∉ x ∧ x.head? ≠ some 58 := by
      intro x hx
      have := List.all_eq_true.mp h3 x hx
      simp only [Bool.and_eq_true, Bool.not_eq_true'] at this
      exact ⟨contains_eq_false_iff.mp this.1, by simpa using this.2⟩
    have hlast : ∀ a, args.getLast? = some a →
        ((decide (c = strB "PRIVMSG") || decide (c = strB "NOTICE")) = true →
          a.head? ≠ some 1) ∧
        (a.contains 32 = true ∨ (a ≠ [] ∧ a.head? ≠ some 58)) := by
      intro a ha
      rw [ha] at h4
      have h4' : ((!(decide (c = strB "PRIVMSG") || decide (c = strB "NOTICE")) ||
            !(decide (a.head? = some 1))) &&
          (a.contains 32 || (!(decide (a = [])) && !(decide (a.head? = some 58))))) =
          true := h4
      simp only [Bool.and_eq_true] at h4'
      constructor
      · intro hck
        have := bool_imp_helper _ _ h4'.1 hck
        simpa using this
      · have := h4'.2
        rw [Bool.or_eq_true] at this
        rcases this with hl | hr
        · exact Or.inl hl
        · right
          simp only [Bool.and_eq_true, Bool.not_eq_true'] at hr
          exact ⟨by simpa using hr.1, by simpa using hr.2⟩
    exact roundtrip_cmd pfx hp hne h2 hmid hlast
  | IRCCode n =>
    have hcmd' : (decide (n < 1000) &&
        args.dropLast.all
          (fun a => !(a.contains 32) && !(decide (a.head? = some 58))) &&
        (match args.getLast? with
         | none => true
         | some a =>
           a.contains 32 || (!(decide (a = [])) && !(decide (a.head? = some 58))))) =
        true := hcmd
    simp only [Bool.and_eq_true] at hcmd'
    obtain ⟨⟨h1, h3⟩, h4⟩ := hcmd'
    have hn : n < 1000 := by simpa using h1
    have hmid : ∀ x ∈ args.dropLast, 32 ∉ x ∧ x.head? ≠ some 58 := by
      intro x hx
      have := List.all_eq_true.mp h3 x hx
      simp only [Bool.and_eq_true, Bool.not_eq_true'] at this
      exact ⟨contains_eq_false_iff.mp this.1, by simpa using this.2⟩
    have hlast : ∀ a, args.getLast? = some a →
        a.contains 32 = true ∨ (a ≠ [] ∧ a.head? ≠ some 58) := by
      intro a ha
      rw [ha] at h4
      have h4' : (a.contains 32 ||
          (!(decide (a = [])) && !(decide (a.head? = some 58)))) = true := h4
      rw [Bool.or_eq_true] at h4'
      rcases h4' with hl | hr
      · exact Or.inl hl
      · right
        simp only [Bool.and_eq_true, Bool.not_eq_true'] at hr
        exact ⟨by simpa using hr.1, by simpa using hr.2⟩
    exact roundtrip_code pfx hp hn hmid hlast
  | IRCAction dst =>
    have hcmd' : (!(dst.contains 32) && !(decide (dst.head? = some 58)) &&
        decide (args.length = 1)) = true := hcmd
    simp only [Bool.and_eq_true, Bool.not_eq_true'] at hcmd'
    obtain ⟨⟨h1, h2⟩, h3⟩ := hcmd'
    have hdsp : 32 ∉ dst := contains_eq_false_iff.mp h1
    have hdc : dst.head? ≠ some 58 := by simpa using h2
    have hlen : args.length = 1 := by simpa using h3
    obtain ⟨p, rfl⟩ : ∃ p, args = [p] := by
      cases args with
      | nil => simp at hlen
      | cons p ps =>
        cases ps with
        | nil => exact ⟨p, rfl⟩
        | cons q qs => simp at hlen
    exact roundtrip_action pfx hp hdsp hdc
  | IRCCTCP sub dst =>
    have hcmd' : (!(dst.contains 32) && !(decide (dst.head? = some 58)) &&
        !(sub.contains 32) && !(decide (sub = strB "ACTION")) &&
        decide (args.length ≤ 1)) = true := hcmd
    simp only [Bool.and_eq_true, Bool.not_eq_true'] at hcmd'
    obtain ⟨⟨⟨⟨h1, h2⟩, h3⟩, h4⟩, h5⟩ := hcmd'
    have hdsp : 32 ∉ dst := contains_eq_false_iff.mp h1
    have hdc : dst.head? ≠ some 58 := by simpa using h2
    have hsub : 32 ∉ sub := contains_eq_false_iff.mp h3
    have hact : sub ≠ strB "ACTION" := by simpa using h4
    have hlen : args.length ≤ 1 := by simpa using h5
    have hshape : args = [] ∨ ∃ p, args = [p] := by
      cases args with
      | nil => exact Or.inl rfl
      | cons p ps =>
        cases ps with
        | nil => exact Or.inr ⟨p, rfl⟩
        | cons q qs => simp at hlen
    exact roundtrip_ctcp pfx hp hdsp hdc hsub hact args hshape
  | IRCCTCPReply sub dst =>
    have hcmd' : (!(dst.contains 32) && !(decide (dst.head? = some 58)) &&
        !(sub.contains 32) && decide (args.length ≤ 1)) = true := hcmd
    simp only [Bool.and_eq_true, Bool.not_eq_true'] at hcmd'
    obtain ⟨⟨⟨h1, h2⟩, h3⟩, h5⟩ := hcmd'
    have hdsp : 32 ∉ dst := contains_eq_false_iff.mp h1
    have hdc : dst.head? ≠ some 58 := by simpa using h2
    have hsub : 32 ∉ sub := contains_eq_false_iff.mp h3
    have hlen : args.length ≤ 1 := by simpa using h5
    have hshape : args = [] ∨ ∃ p, args = [p] := by
      cases args with
      | nil => exact Or.inl rfl
      | cons p ps =>
        cases ps with
        | nil => exact Or.inr ⟨p, rfl⟩
        | cons q qs => simp at hlen
    exact roundtrip_ctcpreply pfx hp hdsp hdc hsub args hshape

/-! ### Characterisation of parse failures (claim C5) -/

theorem parseStage4_ne_err (pfx : Option User) (cmd : Command) (ck : Bool) (v : Bytes) :
    parseStage4 pfx cmd ck v ≠ .err := by
  rw [parseStage4_eq]
  by_cases h : (ck && lastStartsCtcp (parseArgs v)) = true
  · rw [if_pos h]
    cases hr : ctcpRewrite cmd (parseArgs v) with
    | none => simp
    | some pr =>
      cases pr
      simp
  · rw [if_neg h]
    simp

theorem parseStage3_err_iff (pfx : Option User) (c v : Bytes) :
    parseStage3 pfx c v = .err ↔ goodToken c = false := by
  rw [parseStage3, goodToken]
  by_cases h1 : (decide (c.length = 3) && c.all isDigitB) = true
  · simp [h1, parseStage4_ne_err]
  · rw [if_neg h1]
    by_cases h2 : c.all isAlphaB = true
    · simp [h1, h2, parseStage4_ne_err]
    · simp [h1, h2]

theorem parseStage2_err_iff (pfx : Option User) (w : Bytes) :
    parseStage2 pfx w = .err ↔
      (positionElem 32 w = some 0 ∨ goodToken (commandToken w) = false) := by
  rw [parseStage2, commandToken]
  cases hpos : positionElem 32 w with
  | none => simp [parseStage3_err_iff]
  | some idx =>
    by_cases hidx : idx = 0
    · subst hidx
      simp
    · simp [hidx, parseStage3_err_iff]

/-- `Line::parse` returns `None` exactly on a malformed command region. -/
theorem parse_err_iff (v : Bytes) : Line.parse v = .err ↔ rejects v := by
  rw [Line.parse, rejects, commandRegion]
  by_cases hh : v.head? = some 58
  · rw [if_pos hh, if_pos hh]
    cases hpos : positionElem 32 v with
    | none => simp
    | some idx => simp [parseStage2_err_iff]
  · rw [if_neg hh, if_neg hh]
    simp [parseStage2_err_iff]

theorem parse_colon_no_space {u : Bytes} (hu : 32 ∉ u) : Line.parse (58 :: u) = .err := by
  have hpos : positionElem 32 (58 :: u) = none := by
    have : (32 : Nat) ∉ 58 :: u := by
      intro hm
      rcases List.mem_cons.mp hm with h | h
      · omega
      · exact hu h
    exact positionElem_of_not_mem this
  rw [Line.parse, if_pos (show (58 :: u).head? = some 58 from rfl), hpos]

theorem parse_leading_space (w : Bytes) : Line.parse (32 :: w) = .err := by
  have hh : (32 :: w).head? ≠ some 58 := by simp
  rw [parse_noPrefix hh, parseStage2]
  have hpos : positionElem 32 (32 :: w) = some 0 := by simp [positionElem]
  rw [hpos]
  simp

theorem parse_empty_command {p : Bytes} (hp : 32 ∉ p) (w : Bytes) :
    Line.parse (58 :: (p ++ 32 :: 32 :: w)) = .err := by
  rw [parse_withPrefix hp (32 :: w), parseStage2]
  have hpos : positionElem 32 (32 :: w) = some 0 := by simp [positionElem]
  rw [hpos]
  simp

/-! ### `chomp` agrees with the amended description (claim C9) -/

theorem chomp_eq_chompAmended (s : Bytes) : chomp s = chompAmended s := by
  rcases eq_nil_or_append_last s with rfl | ⟨ys, b, rfl⟩
  · rfl
  · rcases eq_nil_or_append_last ys with rfl | ⟨zs, c, rfl⟩
    · show chomp ([] ++ [b]) = chompAmended ([] ++ [b])
      simp only [List.nil_append]
      by_cases h13 : b = 13
      · subst h13
        decide
      · by_cases h10 : b = 10
        · subst h10
          decide
        · simp [chomp, chompAmended, h13, h10]
    · have hshape : (zs ++ [c]) ++ [b] = zs ++ [c, b] := by simp
      rw [hshape]
      have hlen : (zs ++ [c, b]).length = zs.length + 2 := by simp
      have hlast : (zs ++ [c, b]).getLast? = some b := by
        rw [← hshape]
        exact List.getLast?_concat _
      have hdropLast : (zs ++ [c, b]).dropLast = zs ++ [c] := by
        rw [← hshape]
        exact List.dropLast_concat
      have hdrop : (zs ++ [c, b]).drop ((zs ++ [c, b]).length - 2) = [c, b] := by
        rw [hlen]
        have : zs.length + 2 - 2 = zs.length := by omega
        rw [this]
        exact drop_append_length _
      have htake : (zs ++ [c, b]).take ((zs ++ [c, b]).length - 2) = zs := by
        rw [hlen]
        have : zs.length + 2 - 2 = zs.length := by omega
        rw [this]
        exact take_append_length _
      have hget : (zs ++ [c, b]).get? ((zs ++ [c, b]).length - 2) = some c := by
        rw [hlen]
        have h2 : zs.length + 2 - 2 = zs.length := by omega
        rw [h2, ← hshape]
        have hlt : zs.length < (zs ++ [c]).length := by simp
        rw [List.get?_append hlt]
        exact List.get?_concat_length zs c
      by_cases hb13 : b = 13
      · subst hb13
        have h1 : chomp (zs ++ [c, 13]) = zs ++ [c] := by
          simp only [chomp, hlast]
          simp [hdropLast]
        have h2 : chompAmended (zs ++ [c, 13]) = zs ++ [c] := by
          have hc1 : ¬((zs ++ [c, 13]).length ≥ 2 ∧
              (zs ++ [c, 13]).drop ((zs ++ [c, 13]).length - 2) = [13, 10]) := by
            rw [hdrop]
            simp
          rw [chompAmended, if_neg hc1, if_pos (Or.inl hlast), hdropLast]
        rw [h1, h2]
      · by_cases hb10 : b = 10
        · subst hb10
          by_cases hc13 : c = 13
          · subst hc13
            have h1 : chomp (zs ++ [13, 10]) = zs := by
              simp only [chomp, hlast]
              have hcond : (zs ++ [13, 10]).length > 1 ∧
                  (zs ++ [13, 10]).get? ((zs ++ [13, 10]).length - 2) = some 13 := by
                refine ⟨?_, hget⟩
                rw [hlen]
                omega
              rw [if_neg (by decide : ¬(10 : Nat) = 13), if_pos trivial, if_pos hcond, htake]
            have h2 : chompAmended (zs ++ [13, 10]) = zs := by
              have hc1 : (zs ++ [13, 10]).length ≥ 2 ∧
                  (zs ++ [13, 10]).drop ((zs ++ [13, 10]).length - 2) = [13, 10] := by
                refine ⟨?_, hdrop⟩
                rw [hlen]
                omega
              rw [chompAmended, if_pos hc1, htake]
            rw [h1, h2]
          · have h1 : chomp (zs ++ [c, 10]) = zs ++ [c] := by
              simp only [chomp, hlast]
              have hcond : ¬((zs ++ [c, 10]).length > 1 ∧
                  (zs ++ [c, 10]).get? ((zs ++ [c, 10]).length - 2) = some 13) := by
                intro hcontra
                rw [hget] at hcontra
                exact hc13 (by simpa using hcontra.2)
              rw [if_neg (by decide : ¬(10 : Nat) = 13), if_pos trivial, if_neg hcond, hdropLast]
            have h2 : chompAmended (zs ++ [c, 10]) = zs ++ [c] := by
              have hc1 : ¬((zs ++ [c, 10]).length ≥ 2 ∧
                  (zs ++ [c, 10]).drop ((zs ++ [c, 10]).length - 2) = [13, 10]) := by
                rw [hdrop]
                simp [hc13]
              rw [chompAmended, if_neg hc1, if_pos (Or.inr hlast), hdropLast]
            rw [h1, h2]
        · have h1 : chomp (zs ++ [c, b]) = zs ++ [c, b] := by
            simp only [chomp, hlast]
            simp [hb13, hb10]
          have h2 : chompAmended (zs ++ [c, b]) = zs ++ [c, b] := by
            have hc1 : ¬((zs ++ [c, b]).length ≥ 2 ∧
                (zs ++ [c, b]).drop ((zs ++ [c, b]).length - 2) = [13, 10]) := by
              rw [hdrop]
              simp [hb10]
            have hc2 : ¬((zs ++ [c, b]).getLast? = some 13 ∨
                (zs ++ [c, b]).getLast? = some 10) := by
              rw [hlast]
              simp [hb13, hb10]
            rw [chompAmended, if_neg hc1, if_neg hc2]
          rw [h1, h2]

/-! ### Frame-length bounds (claim C3) -/

/-- A frame fit for the writer: at most 512 bytes, CRLF-terminated,
body at most 510 bytes. -/
def frameOk (f : Bytes) : Prop :=
  f.length ≤ 512 ∧ f.drop (f.length - 2) = [13, 10] ∧ f.length - 2 ≤ 510

theorem appendB_length_le {buf : Bytes} (h : buf.length ≤ 510) (v : Bytes) :
    (appendB buf v).length ≤ 510 := by
  simp only [appendB, List.length_append, List.length_take]
  omega

theorem commandHeader_length_le (cmd : Command) : (commandHeader cmd).length ≤ 510 := by
  have h0 : ([] : Bytes).length ≤ 510 := by simp
  cases cmd <;>
    simp only [commandHeader] <;>
    repeat' apply appendB_length_le
  all_goals simp

theorem appendArgsB_length_le {buf : Bytes} (h : buf.length ≤ 510)
    (args : List Bytes) (colon : Bool) : (appendArgsB buf args colon).length ≤ 510 := by
  rw [appendArgsB]
  by_cases he : args.isEmpty
  · rwa [if_pos he]
  · rw [if_neg he]
    apply appendB_length_le
    have hfold : ∀ (xs : List Bytes) (b : Bytes), b.length ≤ 510 →
        (xs.foldl (fun b a => appendB (appendB b [32]) a) b).length ≤ 510 := by
      intro xs
      induction xs with
      | nil => intro b hb; simpa using hb
      | cons x xs ih =>
        intro b hb
        exact ih _ (appendB_length_le (appendB_length_le hb _) _)
    by_cases hc : colon = true
    · rw [if_pos hc]
      exact appendB_length_le (hfold _ _ h) _
    · rw [if_neg hc]
      exact appendB_length_le (hfold _ _ h) _

theorem sendCommandBody_length_le (cmd : Command) (args : List Bytes) (colon : Bool) :
    (sendCommandBody cmd args colon).length ≤ 510 := by
  rw [sendCommandBody]
  have h1 := appendArgsB_length_le (commandHeader_length_le cmd) args colon
  by_cases hc : cmd.is_ctcp = true
  · rw [if_pos hc]
    exact appendB_length_le h1 _
  · rwa [if_neg hc]

theorem frameOk_append_crlf {body : Bytes} (h : body.length ≤ 510) :
    frameOk (body ++ [13, 10]) := by
  refine ⟨?_, ?_, ?_⟩
  · simp only [List.length_append]
    simp
    omega
  · have hl : (body ++ [13, 10]).length - 2 = body.length := by simp
    rw [hl]
    exact drop_append_length _
  · simp only [List.length_append]
    simp
    omega

theorem frameOk_sendCommandFrame (cmd : Command) (args : List Bytes) (colon : Bool) :
    frameOk (sendCommandFrame cmd args colon) :=
  frameOk_append_crlf (sendCommandBody_length_le cmd args colon)

theorem frameOk_sendRawFrame (raw : Bytes) : frameOk (sendRawFrame raw) := by
  apply frameOk_append_crlf
  simp only [List.length_take]
  omega

/-! ### Disconnected no-ops (claim C8) and shutdown drain (claim C7) -/

theorem send_command_disconnected {c : Conn} (h : c.write_tx = none)
    (cmd : Command) (args : List Bytes) (colon : Bool) :
    Conn.send_command c cmd args colon = c := by
  rw [Conn.send_command, h]

theorem send_raw_disconnected {c : Conn} (h : c.write_tx = none) (raw : Bytes) :
    Conn.send_raw c raw = c := by
  rw [Conn.send_raw]
  by_cases he : chomp raw = []
  · rw [if_pos he]
  · rw [if_neg he, h]

theorem send_command_connected {c : Conn} {q : List Bytes} (h : c.write_tx = some q)
    (cmd : Command) (args : List Bytes) (colon : Bool) :
    Conn.send_command c cmd args colon =
      { c with write_tx := some (q ++ [sendCommandFrame cmd args colon]) } := by
  rw [Conn.send_command, h]

theorem send_raw_connected {c : Conn} {q : List Bytes} (h : c.write_tx = some q)
    (raw : Bytes) (hne : chomp raw ≠ []) :
    Conn.send_raw c raw = { c with write_tx := some (q ++ [sendRawFrame raw]) } := by
  rw [Conn.send_raw, if_neg hne, h]

theorem drainLoop_eq {α : Type} : ∀ q : List α, drainLoop q = q
  | [] => rfl
  | x :: xs => by rw [drainLoop, drainLoop_eq xs]

theorem foldl_noop : ∀ (q : List (Conn → Conn)),
    (∀ p ∈ q, ∀ s : Conn, s.write_tx = none → p s = s) →
    ∀ s : Conn, s.write_tx = none → q.foldl (fun s p => p s) s = s
  | [], _, _, _ => rfl
  | p :: ps, hfix, s, hs => by
    rw [List.foldl_cons, hfix p (List.mem_cons_self _ _) s hs]
    exact foldl_noop ps (fun x hx => hfix x (List.mem_cons_of_mem _ hx)) s hs

/-! ### Remaining helper lemmas for the claim theorems -/

theorem ctcpStrip_ends_one {text : Bytes} (h : text.getLast? = some 1) :
    ctcpStrip text = (text.drop 1).dropLast := by
  by_cases hl : text.length > 1
  · rw [ctcpStrip, if_pos ⟨hl, h⟩, List.dropLast_eq_take]
    congr 1
    simp only [List.length_drop]
    omega
  · have hne : text ≠ [] := by
      intro hc
      rw [hc] at h
      simp at h
    have h1 : text.length = 1 := by
      have := List.length_pos.mpr hne
      omega
    obtain ⟨b, rfl⟩ : ∃ b, text = [b] := by
      cases text with
      | nil => exact absurd rfl hne
      | cons b bs =>
        cases bs with
        | nil => exact ⟨b, rfl⟩
        | cons c cs => simp at h1
    rw [ctcpStrip, if_neg]
    · simp
    · intro hc
      exact hl hc.1

theorem ctcpStrip_not_ends {text : Bytes} (h : text.getLast? ≠ some 1) :
    ctcpStrip text = text.drop 1 := by
  rw [ctcpStrip, if_neg]
  intro hc
  exact h hc.2

theorem ctcpRewrite_single_byte (dst : Bytes) :
    ctcpRewrite (.IRCCmd (strB "PRIVMSG")) [dst, [1]] = some (.IRCCTCP [] dst, []) ∧
    ctcpRewrite (.IRCCmd (strB "NOTICE")) [dst, [1]] = some (.IRCCTCPReply [] dst, []) := by
  have hA : ¬(([] : Bytes) = strB "ACTION") := by decide
  have hNP : ¬(strB "NOTICE" = strB "PRIVMSG") := by decide
  constructor <;> simp [ctcpRewrite, ctcpStrip, positionElem, hA, hNP]

theorem to_raw_code_noargs (n : Nat) :
    Line.to_raw ⟨none, .IRCCode n, []⟩ = pad3 (natDigits n) := by
  simp [Line.to_raw, Command.is_ctcp]

theorem pad3_of_length_ge {v : Bytes} (h : 3 ≤ v.length) : pad3 v = v := by
  rw [pad3]
  have h0 : 3 - min v.length 3 = 0 := by omega
  rw [h0]
  simp

/-! ### Claim theorems -/

/-- Claim C1, counterexample: the `Line` with command `PING` and the
single empty arg satisfies conditions (a) and (b) of the claim, and it
is produced by `Line::parse` on the frame `"PING :"`, yet
`Line::parse (Line::to_raw ·)` does not return an equal `Line` (the
empty trailing arg is serialized without a colon and vanishes on
re-parse). -/
theorem c1_roundtrip_counterexample :
    condA ⟨none, .IRCCmd (strB "PING"), [[]]⟩ = true ∧
    condB ⟨none, .IRCCmd (strB "PING"), [[]]⟩ = true ∧
    Line.parse (strB "PING :") = .ok ⟨none, .IRCCmd (strB "PING"), [[]]⟩ ∧
    Line.parse (Line.to_raw ⟨none, .IRCCmd (strB "PING"), [[]]⟩) ≠
      .ok ⟨none, .IRCCmd (strB "PING"), [[]]⟩ := by
  refine ⟨by decide, by decide, by decide, by decide⟩

/-- Claim C1 (amended): for every `Line` that is well formed — prefix
bytes without a space; an `IRCCmd` name non-empty and all ASCII
alphabetic with, for `PRIVMSG`/`NOTICE`, a last arg not starting with
`0x01`; an `IRCCode` below 1000; non-CTCP args other than the last
without spaces and not starting with `':'`, and a space-free last arg
non-empty and not starting with `':'`; CTCP destinations without spaces
and not starting with `':'`, CTCP sub-commands without spaces, an
`IRCCTCP` sub-command different from `"ACTION"`, and at most one CTCP
arg (exactly one for `IRCAction`) — `Line::parse` applied to
`Line::to_raw` returns `Some` of an equal `Line`. -/
theorem c1_roundtrip (l : Line) (h : l.wellFormed = true) :
    Line.parse l.to_raw = .ok l :=
  wellFormed_roundtrip l h

/-- Witness for `c1_roundtrip` at the welcome frame of the test suite. -/
theorem c1_roundtrip_witness :
    Line.wellFormed ⟨some ⟨strB "sendak.freenode.net"⟩, .IRCCode 1,
      [strB "asldfkj", strB "Welcome to the freenode Internet Relay Chat Network asldfkj"]⟩ =
      true ∧
    Line.parse (Line.to_raw ⟨some ⟨strB "sendak.freenode.net"⟩, .IRCCode 1,
      [strB "asldfkj", strB "Welcome to the freenode Internet Relay Chat Network asldfkj"]⟩) =
      .ok ⟨some ⟨strB "sendak.freenode.net"⟩, .IRCCode 1,
        [strB "asldfkj", strB "Welcome to the freenode Internet Relay Chat Network asldfkj"]⟩ :=
  ⟨by decide, c1_roundtrip _ (by decide)⟩

/-- Claim C2: the spec says `Line::parse` is total, but the code
panics: on a `PRIVMSG`/`NOTICE` frame whose only arg is the CTCP text,
popping that text leaves no destination arg and
`args.into_iter().next().unwrap()` fails. -/
theorem c2_parse_crash :
    Line.parse (strB "PRIVMSG :" ++ [1] ++ strB "VERSION") = .crash ∧
    Line.parse (strB "NOTICE :" ++ [1] ++ strB "PING") = .crash :=
  ⟨by decide, by decide⟩

/-- Claim C3: frames handed to the writer channel by `send_command` are
the CRLF-terminated truncated body, at most 512 bytes with a body of at
most 510 bytes; the same bound holds for `send_raw` frames. -/
theorem c3_frame_bounds (c : Conn) (cmd : Command) (args : List Bytes) (colon : Bool)
    (raw : Bytes) (q : List Bytes) (h : c.write_tx = some q) :
    (Conn.send_command c cmd args colon).write_tx =
      some (q ++ [sendCommandFrame cmd args colon]) ∧
    frameOk (sendCommandFrame cmd args colon) ∧
    frameOk (sendRawFrame raw) ∧
    ((Conn.send_raw c raw).write_tx = some q ∨
      (Conn.send_raw c raw).write_tx = some (q ++ [sendRawFrame raw])) := by
  refine ⟨?_, frameOk_sendCommandFrame cmd args colon, frameOk_sendRawFrame raw, ?_⟩
  · rw [send_command_connected h]
  · by_cases he : chomp raw = []
    · left
      have hid : Conn.send_raw c raw = c := by rw [Conn.send_raw, if_pos he]
      rw [hid, h]
    · right
      rw [send_raw_connected h raw he]

/-- Witness for `c3_frame_bounds` on a concrete connected `Conn`. -/
theorem c3_frame_bounds_witness :
    (Conn.send_command ⟨strB "h", some [], false, ⟨strB "n"⟩⟩
        (.IRCCmd (strB "PRIVMSG")) [strB "#c", strB "hi"] true).write_tx =
      some ([] ++ [sendCommandFrame (.IRCCmd (strB "PRIVMSG")) [strB "#c", strB "hi"] true]) ∧
    frameOk (sendCommandFrame (.IRCCmd (strB "PRIVMSG")) [strB "#c", strB "hi"] true) ∧
    frameOk (sendRawFrame (strB "QUIT")) ∧
    ((Conn.send_raw ⟨strB "h", some [], false, ⟨strB "n"⟩⟩ (strB "QUIT")).write_tx =
        some [] ∨
      (Conn.send_raw ⟨strB "h", some [], false, ⟨strB "n"⟩⟩ (strB "QUIT")).write_tx =
        some ([] ++ [sendRawFrame (strB "QUIT")])) :=
  c3_frame_bounds _ _ _ _ _ [] rfl

/-- Claim C4: `to_raw` renders `Code(n)` as all-digit bytes whose
decimal value is `n`, with length `max 3 (digits n)` (left-padding with
`'0'` to width 3); for `n ≥ 1000` all digits are emitted unpadded, and
the rendering of code 1000 is rejected by the parser, so round-trip is
not guaranteed there. -/
theorem c4_code_rendering (n : Nat) :
    (Line.to_raw ⟨none, .IRCCode n, []⟩).all isDigitB = true ∧
    digitsToNat (Line.to_raw ⟨none, .IRCCode n, []⟩) = n ∧
    (Line.to_raw ⟨none, .IRCCode n, []⟩).length = max 3 (natDigits n).length ∧
    (1000 ≤ n → Line.to_raw ⟨none, .IRCCode n, []⟩ = natDigits n) ∧
    Line.parse (Line.to_raw ⟨none, .IRCCode 1000, []⟩) = .err := by
  rw [to_raw_code_noargs]
  refine ⟨?_, ?_, pad3_length _, ?_, by decide⟩
  · rw [List.all_eq_true]
    intro b hb
    have hd := pad3_all_digits (fun b hb => natDigits_all_digits b hb) b hb
    simp only [isDigitB, decide_eq_true_eq]
    omega
  · rw [digitsToNat_pad3, digitsToNat_natDigits]
  · intro hge
    exact pad3_of_length_ge (by have := natDigits_length_ge_four hge; omega)

/-- Witness for `c4_code_rendering` at `n = 1234`. -/
theorem c4_code_rendering_witness :
    (1000 ≤ 1234 ∧ Line.to_raw ⟨none, .IRCCode 1234, []⟩ = natDigits 1234) :=
  ⟨by decide, (c4_code_rendering 1234).2.2.2.1 (by decide)⟩

/-- Claim C5: `Line::parse` returns `None` exactly on malformed command
regions — a `':'`-led line with no space, a leading space, an empty
command token after the prefix, or a command token neither three ASCII
digits nor all ASCII alphabetic; in particular on the four concrete
frames of the test suite. -/
theorem c5_parse_rejects :
    (∀ v : Bytes, Line.parse v = .err ↔ rejects v) ∧
    (∀ u : Bytes, 32 ∉ u → Line.parse (58 :: u) = .err) ∧
    (∀ w : Bytes, Line.parse (32 :: w) = .err) ∧
    (∀ p w : Bytes, 32 ∉ p → Line.parse (58 :: (p ++ 32 :: 32 :: w)) = .err) ∧
    Line.parse (strB " :foo 001 x :y") = .err ∧
    Line.parse (strB ":foo  001 x") = .err ∧
    Line.parse (strB ":bob f23") = .err ∧
    Line.parse (strB ":bob f" ++ [195, 131, 194, 182] ++ strB "o") = .err :=
  ⟨parse_err_iff, fun _ hu => parse_colon_no_space hu, parse_leading_space,
    fun _ w hp => parse_empty_command hp w, by decide, by decide, by decide, by decide⟩

/-- Witness for `c5_parse_rejects` on concrete malformed frames. -/
theorem c5_parse_rejects_witness :
    Line.parse (58 :: strB "nospace") = .err ∧
    Line.parse (32 :: strB "x") = .err ∧
    Line.parse (58 :: (strB "bob" ++ 32 :: 32 :: strB "x")) = .err :=
  ⟨c5_parse_rejects.2.1 (strB "nospace") (by decide),
    c5_parse_rejects.2.2.1 (strB "x"),
    c5_parse_rejects.2.2.2.1 (strB "bob") (strB "x") (by decide)⟩

/-- Claim C6: CTCP framing on parse — a trailing CTCP text ending in
`0x01` loses both framing bytes, one not ending in `0x01` is still
extracted losing only the leading byte; concretely the unterminated
`ACTION` frame parses to `Action("#channel")` with args
`["does some stuff"]` and the terminated `VERSION` frame to
`Ctcp("VERSION", "#channel")`. -/
theorem c6_ctcp_framing :
    (∀ text : Bytes, text.getLast? = some 1 → ctcpStrip text = (text.drop 1).dropLast) ∧
    (∀ text : Bytes, text.head? = some 1 → text.getLast? ≠ some 1 →
      ctcpStrip text = text.drop 1) ∧
    Line.parse (strB ":bob!user@host.com PRIVMSG #channel :" ++ [1] ++
        strB "ACTION does some stuff") =
      .ok ⟨some ⟨strB "bob!user@host.com"⟩, .IRCAction (strB "#channel"),
        [strB "does some stuff"]⟩ ∧
    Line.parse (strB ":bob!user@host.com PRIVMSG #channel :" ++ [1] ++
        strB "VERSION" ++ [1]) =
      .ok ⟨some ⟨strB "bob!user@host.com"⟩, .IRCCTCP (strB "VERSION") (strB "#channel"),
        []⟩ :=
  ⟨fun _ h => ctcpStrip_ends_one h, fun _ _ h => ctcpStrip_not_ends h, by decide, by decide⟩

/-- Witness for `c6_ctcp_framing` at concrete CTCP texts. -/
theorem c6_ctcp_framing_witness :
    ctcpStrip [1, 65, 1] = ([1, 65, 1].drop 1).dropLast ∧
    ctcpStrip [1, 65] = [1, 65].drop 1 :=
  ⟨c6_ctcp_framing.1 [1, 65, 1] (by decide),
    c6_ctcp_framing.2.1 [1, 65] (by decide) (by decide)⟩

/-- Claim C7: the shutdown tail of `Conn::run` drains the buffered
commands exactly once, in order, into a local list; the writer handle
is cleared before any of them runs; each then executes once in order on
the disconnected connection, and commands that only attempt sends leave
the connection unchanged. -/
theorem c7_shutdown_drain (c : Conn) (q : List (Conn → Conn)) :
    drainLoop q = q ∧
    Conn.runShutdown c (some q) = q.foldl (fun s p => p s) { c with write_tx := none } ∧
    ({ c with write_tx := none } : Conn).write_tx = none ∧
    ((∀ p ∈ q, ∀ s : Conn, s.write_tx = none → p s = s) →
      Conn.runShutdown c (some q) = { c with write_tx := none }) := by
  have h2 : Conn.runShutdown c (some q) =
      q.foldl (fun s p => p s) { c with write_tx := none } := by
    rw [Conn.runShutdown]
    simp [drainLoop_eq]
  refine ⟨drainLoop_eq q, h2, rfl, ?_⟩
  intro hfix
  rw [h2]
  exact foldl_noop q hfix _ rfl

/-- Witness for `c7_shutdown_drain`: a drained `send_raw` command on
the disconnected connection is a no-op. -/
theorem c7_shutdown_drain_witness :
    Conn.runShutdown ⟨strB "h", some [], true, ⟨strB "n"⟩⟩
      (some [fun s => Conn.send_raw s (strB "QUIT")]) =
      { (⟨strB "h", some [], true, ⟨strB "n"⟩⟩ : Conn) with write_tx := none } :=
  (c7_shutdown_drain _ _).2.2.2 (by
    intro p hp s hs
    simp only [List.mem_singleton] at hp
    subst hp
    exact send_raw_disconnected hs _)

/-- Claim C8: with the writer handle absent, `send_command` and
`send_raw` are silent no-ops leaving the connection unchanged, and
`is_connected` is `true` exactly when the writer handle is present. -/
theorem c8_disconnected (c : Conn) (cmd : Command) (args : List Bytes)
    (colon : Bool) (raw : Bytes) :
    (c.write_tx = none →
      Conn.send_command c cmd args colon = c ∧ Conn.send_raw c raw = c ∧
      Conn.is_connected c = false) ∧
    (Conn.is_connected c = true ↔ ∃ q, c.write_tx = some q) := by
  constructor
  · intro h
    exact ⟨send_command_disconnected h cmd args colon, send_raw_disconnected h raw,
      by simp [Conn.is_connected, h]⟩
  · simp [Conn.is_connected, Option.isSome_iff_exists]

/-- Witness for `c8_disconnected` on a concrete disconnected `Conn`. -/
theorem c8_disconnected_witness :
    Conn.send_command ⟨strB "h", none, false, ⟨strB "n"⟩⟩
        (.IRCCmd (strB "PING")) [] false = ⟨strB "h", none, false, ⟨strB "n"⟩⟩ ∧
    Conn.send_raw ⟨strB "h", none, false, ⟨strB "n"⟩⟩ (strB "hi") =
      ⟨strB "h", none, false, ⟨strB "n"⟩⟩ ∧
    Conn.is_connected ⟨strB "h", none, false, ⟨strB "n"⟩⟩ = false :=
  (c8_disconnected _ _ _ _ _).1 rfl

/-- Claim C9, counterexample: on input `"x\n"` the claim's strip
(removing only a trailing `"\r"` or `"\r\n"`) leaves the input intact,
but `send_raw` (via `chomp`) also strips the bare `"\n"`, so the frame
actually forwarded differs from the claim's prediction. -/
theorem c9_send_raw_counterexample :
    chompClaimC9 [120, 10] = [120, 10] ∧
    chomp [120, 10] = [120] ∧
    (Conn.send_raw ⟨[], some [], false, ⟨[]⟩⟩ [120, 10]).write_tx =
      some [[120, 13, 10]] ∧
    sendRawFrame [120, 10] ≠ chompClaimC9 [120, 10] ++ [13, 10] := by
  refine ⟨by decide, by decide, by decide, by decide⟩

/-- Claim C9 (amended): `send_raw` first strips one trailing line
terminator — `"\r\n"`, `"\r"` or `"\n"` — returns silently when the
result is empty, and otherwise truncates to 510 bytes, appends
`"\r\n"` and forwards the frame to the writer. -/
theorem c9_send_raw (raw : Bytes) :
    chomp raw = chompAmended raw ∧
    (∀ (c : Conn) (q : List Bytes), c.write_tx = some q →
      Conn.send_raw c raw =
        if chomp raw = [] then c
        else { c with write_tx := some (q ++ [(chomp raw).take 510 ++ [13, 10]]) }) ∧
    (∀ c : Conn, chomp raw = [] → Conn.send_raw c raw = c) := by
  refine ⟨chomp_eq_chompAmended raw, ?_, ?_⟩
  · intro c q h
    by_cases he : chomp raw = []
    · rw [if_pos he, Conn.send_raw, if_pos he]
    · rw [if_neg he, send_raw_connected h raw he]
      rfl
  · intro c he
    rw [Conn.send_raw, if_pos he]

/-- Witness for `c9_send_raw` on a concrete CRLF-terminated input. -/
theorem c9_send_raw_witness :
    Conn.send_raw ⟨strB "h", some [], false, ⟨strB "n"⟩⟩ (strB "hi" ++ [13, 10]) =
      (if chomp (strB "hi" ++ [13, 10]) = [] then
        (⟨strB "h", some [], false, ⟨strB "n"⟩⟩ : Conn)
      else { (⟨strB "h", some [], false, ⟨strB "n"⟩⟩ : Conn) with
        write_tx := some ([] ++ [(chomp (strB "hi" ++ [13, 10])).take 510 ++ [13, 10]]) }) :=
  (c9_send_raw _).2.1 _ [] rfl

/-- Claim C10: a `PRIVMSG` (resp. `NOTICE`) whose trailing arg is
exactly the byte `0x01` still goes through CTCP extraction with only
that leading byte stripped, yielding `Ctcp("", dst)` (resp.
`CtcpReply("", dst)`) with empty sub-command and no args. -/
theorem c10_single_byte_ctcp (dst : Bytes) :
    ctcpRewrite (.IRCCmd (strB "PRIVMSG")) [dst, [1]] = some (.IRCCTCP [] dst, []) ∧
    ctcpRewrite (.IRCCmd (strB "NOTICE")) [dst, [1]] = some (.IRCCTCPReply [] dst, []) ∧
    ctcpStrip [1] = [1].drop 1 ∧
    Line.parse (strB "PRIVMSG #channel :" ++ [1]) =
      .ok ⟨none, .IRCCTCP [] (strB "#channel"), []⟩ ∧
    Line.parse (strB "NOTICE #channel :" ++ [1]) =
      .ok ⟨none, .IRCCTCPReply [] (strB "#channel"), []⟩ :=
  ⟨(ctcpRewrite_single_byte dst).1, (ctcpRewrite_single_byte dst).2,
    by decide, by decide, by decide⟩


end Irclib
